import Mathlib

/-!
Verification development for the MediCare document-intelligence and
reminder-scheduling pipeline.

The Python source is shallowly embedded:

* `convert_time_to_iso` (app/services/discharge_parser_service.py, lines 28-94)
* `generate_reminders` (same file, lines 97-188)
* `robust_json_parse` (same file, lines 311-447), together with a model of
  Python's `json.loads` and of the concrete `re.sub`/`re.search` rewrites the
  function applies
* the medication and followup record builders inside
  `parse_discharge_summary_with_vision` (same file, lines 576-701)
* the per-document bill/report batch loops of `create_patient_endpoint`
  (app/api/v1/patients.py, lines 207-338)

Dates are Python `date.toordinal()` values (proleptic Gregorian day numbers,
`0001-01-01 = 1`), so `date.weekday()` is `(ordinal + 6) % 7` with Monday = 0.
Python exceptions are modelled with `Except`; values that Python treats
dynamically are modelled by an explicit `Json` tree together with Python's
truthiness.  All definitions are executable.
-/

set_option maxRecDepth 10000

namespace MediCare

/-! ## Characters and Python string primitives -/

/-- The `\x7b` character (opening curly brace). -/
def lbrace : Char := Char.ofNat 123

/-- The `\x7d` character (closing curly brace). -/
def rbrace : Char := Char.ofNat 125

/-- The backtick character used by markdown code fences. -/
def btick : Char := Char.ofNat 96

/-- The single-quote character. -/
def squote : Char := Char.ofNat 39

/-- The double-quote character. -/
def dquote : Char := Char.ofNat 34

/-- Python `str.strip()` / regex `\s` whitespace (ASCII range). -/
def isPySpace (c : Char) : Bool :=
  c == ' ' || c == '\t' || c == '\n' || c == '\r' || c == '\x0b' || c == '\x0c'

/-- Whitespace skipped by Python's `json` scanner: space, tab, newline, return. -/
def isJsonSpace (c : Char) : Bool :=
  c == ' ' || c == '\t' || c == '\n' || c == '\r'

/-- Python `str.strip()` on a character list. -/
def pyStrip (cs : List Char) : List Char :=
  ((cs.dropWhile isPySpace).reverse.dropWhile isPySpace).reverse

/-- Python `str.strip()` on a string. -/
def pyStripStr (s : String) : String :=
  String.mk (pyStrip s.data)

/-- Python `str.upper()` (ASCII letters; the inputs of interest are ASCII). -/
def pyUpper (cs : List Char) : List Char :=
  cs.map Char.toUpper

/-- Python `str.lower()` (ASCII letters; the inputs of interest are ASCII). -/
def pyLower (cs : List Char) : List Char :=
  cs.map Char.toLower

/-- Python `str.lower()` on a string. -/
def pyLowerStr (s : String) : String :=
  String.mk (pyLower s.data)

/-- Substring containment, modelling Python's `needle in haystack`. -/
def containsSub (pat : List Char) : List Char → Bool
  | [] => pat.isEmpty
  | c :: rest => pat.isPrefixOf (c :: rest) || containsSub pat rest

/-- Python `str.split(sep)` for a one-character separator: keeps empty parts,
and splitting the empty string yields `[[]]`. -/
def splitOnChar (sep : Char) : List Char → List (List Char)
  | [] => [[]]
  | c :: rest =>
    if c == sep then
      [] :: splitOnChar sep rest
    else
      match splitOnChar sep rest with
      | [] => [[c]]
      | p :: ps => (c :: p) :: ps

/-- Python `str.replace(ab, "")` for a two-character pattern: removes all
non-overlapping occurrences, scanning left to right. -/
def removeSub2 (a b : Char) : List Char → List Char
  | [] => []
  | [c] => [c]
  | c :: d :: rest =>
    if c == a && d == b then removeSub2 a b rest
    else c :: removeSub2 a b (d :: rest)

/-- Digit-run accumulator for `pyInt`: Python 3 allows single underscores
between digits of an integer literal. -/
def pyDigitsAux (acc : Nat) : List Char → Option Nat
  | [] => some acc
  | c :: rest =>
    if c.isDigit then pyDigitsAux (acc * 10 + (c.toNat - 48)) rest
    else if c == '_' then
      match rest with
      | d :: rest2 =>
        if d.isDigit then pyDigitsAux (acc * 10 + (d.toNat - 48)) rest2 else none
      | [] => none
    else none

/-- Nonempty digit run (with optional internal underscores), as accepted by
Python's `int()`. -/
def pyDigits : List Char → Option Nat
  | [] => none
  | c :: rest =>
    if c.isDigit then pyDigitsAux (c.toNat - 48) rest else none

/-- Python's `int(str)`: strips surrounding whitespace, accepts an optional
sign, then a nonempty digit run; `none` models the `ValueError`. -/
def pyInt (cs : List Char) : Option Int :=
  match pyStrip cs with
  | [] => none
  | c :: rest =>
    if c == '+' then (pyDigits rest).map Int.ofNat
    else if c == '-' then (pyDigits rest).map fun n => -(Int.ofNat n)
    else (pyDigits (c :: rest)).map Int.ofNat

/-! ## Proleptic Gregorian dates (Python `datetime.date`) -/

/-- Python `calendar.isleap`. -/
def isLeapYear (y : Nat) : Bool :=
  y % 4 == 0 && (y % 100 != 0 || y % 400 == 0)

/-- Cumulative days before month `m` in a non-leap year (month 1..12). -/
def cumDaysBeforeMonth (m : Nat) : Nat :=
  match m with
  | 1 => 0 | 2 => 31 | 3 => 59 | 4 => 90 | 5 => 120 | 6 => 151
  | 7 => 181 | 8 => 212 | 9 => 243 | 10 => 273 | 11 => 304 | 12 => 334
  | _ => 0

/-- Days in month `m` of year `y` (month 1..12). -/
def daysInMonth (y m : Nat) : Nat :=
  match m with
  | 1 => 31 | 2 => if isLeapYear y then 29 else 28 | 3 => 31 | 4 => 30
  | 5 => 31 | 6 => 30 | 7 => 31 | 8 => 31 | 9 => 30 | 10 => 31
  | 11 => 30 | 12 => 31
  | _ => 0

/-- Python `date(y, m, d).toordinal()`: day 1 is `0001-01-01`. -/
def dateOrdinal (y m d : Nat) : Nat :=
  365 * (y - 1) + (y - 1) / 4 + (y - 1) / 400
    + cumDaysBeforeMonth m + (if 2 < m && isLeapYear y then 1 else 0) + d
    - (y - 1) / 100

/-- Short name used throughout for concrete dates. -/
def mkDate (y m d : Nat) : Nat := dateOrdinal y m d

/-- Inverse of `dateOrdinal` (civil-from-days, era arithmetic shifted so that
all intermediate quantities stay in `Nat`). -/
def civilFromOrdinal (n : Nat) : Nat × Nat × Nat :=
  let z := n + 305
  let era := z / 146097
  let doe := z % 146097
  let yoe := (doe - doe / 1460 + doe / 36524 - doe / 146096) / 365
  let y0 := yoe + era * 400
  let doy := doe - (365 * yoe + yoe / 4 - yoe / 100)
  let mp := (5 * doy + 2) / 153
  let d := doy - (153 * mp + 2) / 5 + 1
  let m := if mp < 10 then mp + 3 else mp - 9
  (if m ≤ 2 then y0 + 1 else y0, m, d)

/-- Python `date.weekday()`: 0 = Monday .. 6 = Sunday. -/
def weekdayIdx (n : Nat) : Nat := (n + 6) % 7

/-- Zero-padded two-digit rendering. -/
def pad2 (n : Nat) : String :=
  if n < 10 then "0" ++ toString n else toString n

/-- Zero-padded four-digit rendering (`strftime %Y`). -/
def pad4 (n : Nat) : String :=
  if n < 10 then "000" ++ toString n
  else if n < 100 then "00" ++ toString n
  else if n < 1000 then "0" ++ toString n
  else toString n

/-- Python `date.isoformat()` / `strftime %Y-%m-%d` from an ordinal. -/
def dateIso (n : Nat) : String :=
  let c := civilFromOrdinal n
  pad4 c.1 ++ "-" ++ pad2 c.2.1 ++ "-" ++ pad2 c.2.2

/-- The `strftime "%Y-%m-%dT%H:%M:%SZ"` format used by the pipeline. -/
def fmtTimestamp (n h mi s : Nat) : String :=
  dateIso n ++ "T" ++ pad2 h ++ ":" ++ pad2 mi ++ ":" ++ pad2 s ++ "Z"

/-- Take at most `k` leading digits, returning their value, how many were
taken, and the rest of the input. -/
def takeDigits : Nat → List Char → Nat × Nat × List Char
  | 0, cs => (0, 0, cs)
  | _ + 1, [] => (0, 0, [])
  | k + 1, c :: rest =>
    if c.isDigit then
      let r := takeDigits k rest
      ((c.toNat - 48) * 10 ^ r.2.1 + r.1, r.2.1 + 1, r.2.2)
    else (0, 0, c :: rest)

/-- Python `datetime.strptime(s, "%Y-%m-%d").date()`: greedy 1-4 digit year,
dash, 1-2 digit month, dash, 1-2 digit day, end of string, with calendar
validation; `none` models the `ValueError`. -/
def pyStrptimeYmd (cs : List Char) : Option Nat :=
  let (y, yc, r1) := takeDigits 4 cs
  if yc == 0 then none else
  match r1 with
  | c1 :: r2 =>
    if c1 == '-' then
      let (m, mc, r3) := takeDigits 2 r2
      if mc == 0 then none else
      match r3 with
      | c2 :: r4 =>
        if c2 == '-' then
          let (d, dc, r5) := takeDigits 2 r4
          if dc == 0 then none else
          if r5.isEmpty && 1 ≤ y && 1 ≤ m && m ≤ 12 && 1 ≤ d && d ≤ daysInMonth y m then
            some (dateOrdinal y m d)
          else none
        else none
      | [] => none
    else none
  | [] => none

/-! ## Enumerations and records (app/schemas/medications.py, patients.py) -/

/-- `DayEnum` (app/schemas/medications.py): days of the week, in declaration
order, so that `list(DayEnum)[i]` is position `i` below. -/
inductive DayEnum where
  | monday | tuesday | wednesday | thursday | friday | saturday | sunday
  deriving DecidableEq, Repr

/-- The order of `list(DayEnum)` in Python. -/
def dayEnumList : List DayEnum :=
  [.monday, .tuesday, .wednesday, .thursday, .friday, .saturday, .sunday]

/-- `list(DayEnum)[i]` for `i` in `0..6`. -/
def dayEnumOfIdx (i : Nat) : DayEnum :=
  dayEnumList.getD i .monday

/-- The `DayEnum` of a date ordinal (`DayEnum(list(DayEnum)[d.weekday()])`). -/
def dayEnumOfDate (n : Nat) : DayEnum :=
  dayEnumOfIdx (weekdayIdx n)

/-- `DayEnum(value)` lookup by string value; `none` models the `ValueError`. -/
def parseDayEnum (s : String) : Option DayEnum :=
  if s == "monday" then some .monday
  else if s == "tuesday" then some .tuesday
  else if s == "wednesday" then some .wednesday
  else if s == "thursday" then some .thursday
  else if s == "friday" then some .friday
  else if s == "saturday" then some .saturday
  else if s == "sunday" then some .sunday
  else none

/-- `FrequencyEnum` (app/schemas/medications.py). -/
inductive FrequencyEnum where
  | daily | alternate_days | twice_a_week | weekly | as_needed | custom
  deriving DecidableEq, Repr

/-- `FrequencyEnum(value)` lookup; `none` models the `ValueError`. -/
def parseFrequency (s : String) : Option FrequencyEnum :=
  if s == "daily" then some .daily
  else if s == "alternate_days" then some .alternate_days
  else if s == "twice_a_week" then some .twice_a_week
  else if s == "weekly" then some .weekly
  else if s == "as_needed" then some .as_needed
  else if s == "custom" then some .custom
  else none

/-- `MedicationStatus` (app/schemas/medications.py). -/
inductive MedicationStatus where
  | active | stopped | completed
  deriving DecidableEq, Repr

/-- `MedicationStatus(value)` lookup; `none` models the `ValueError`. -/
def parseMedicationStatus (s : String) : Option MedicationStatus :=
  if s == "active" then some .active
  else if s == "stopped" then some .stopped
  else if s == "completed" then some .completed
  else none

/-- `Reminder` (app/schemas/medications.py, lines 47-54); the misspelled field
name `datte` is the source's, and holds a date ordinal here. -/
structure Reminder where
  day : DayEnum
  datte : Nat
  time : String
  isreminded : Bool
  isresponded : Bool
  deriving DecidableEq, Repr

/-- `MedicationDetail` (app/schemas/medications.py, lines 57-68); dates are
ordinals. -/
structure MedicationDetail where
  name : String
  dosage : String
  start_date : Option Nat
  end_date : Option Nat
  timing : List String
  days : List DayEnum
  frequency : FrequencyEnum
  status : MedicationStatus
  reminders : List Reminder
  deriving DecidableEq, Repr

/-- The 24-hour branch of `convert_time_to_iso` (no AM/PM present): splits on
a colon; 2 parts give hour:minute, 3 parts give hour:minute:second, any other
count (including 4 or more parts) takes only `int(parts[0])` as the hour; with
no colon the whole text is the hour.  `none` models the `ValueError`. -/
def hms24 (t : List Char) : Option (Int × Int × Int) :=
  if t.contains ':' then
    let parts := splitOnChar ':' t
    if parts.length == 2 then do
      let h ← pyInt (parts.getD 0 [])
      let m ← pyInt (parts.getD 1 [])
      pure (h, m, 0)
    else if parts.length == 3 then do
      let h ← pyInt (parts.getD 0 [])
      let m ← pyInt (parts.getD 1 [])
      let s ← pyInt (parts.getD 2 [])
      pure (h, m, s)
    else do
      let h ← pyInt (parts.getD 0 [])
      pure (h, 0, 0)
  else do
    let h ← pyInt t
    pure (h, 0, 0)

/-- The meridiem branch of `convert_time_to_iso` after the AM/PM markers have
been removed: with a colon, hour is `parts[0]`, minute is `parts[1]` if
present, second is `parts[2]` if present (later parts are ignored); without a
colon the whole text is the hour. -/
def hms12 (t : List Char) : Option (Int × Int × Int) :=
  if t.contains ':' then
    let parts := splitOnChar ':' t
    do
      let h ← pyInt (parts.getD 0 [])
      let m ← if parts.length > 1 then pyInt (parts.getD 1 []) else some 0
      let s ← if parts.length > 2 then pyInt (parts.getD 2 []) else some 0
      pure (h, m, s)
  else do
    let h ← pyInt t
    pure (h, 0, 0)

/-- The 12-hour to 24-hour conversion of `convert_time_to_iso`:
`if is_pm and hour != 12: hour += 12; elif not is_pm and hour == 12: hour = 0`. -/
def meridiemAdjust (isPm : Bool) (h : Int) : Int :=
  if isPm && h != 12 then h + 12
  else if !isPm && h == 12 then 0
  else h

/-- Bounds enforced by `datetime.min.time().replace(hour=h, minute=m, second=s)`;
violating them raises `ValueError`, which `convert_time_to_iso` catches. -/
def validHms (h m s : Int) : Bool :=
  0 ≤ h && h ≤ 23 && 0 ≤ m && m ≤ 59 && 0 ≤ s && s ≤ 59

/-- `convert_time_to_iso(time_str, date_obj)` (lines 28-94): uppercases and
strips, branches on the presence of an AM/PM substring, parses
hour/minute/second, applies the 12-hour conversion, and on any `ValueError`
falls back to 10:00:00 on the same date. -/
def convert_time_to_iso (timeStr : String) (dateOrd : Nat) : String :=
  let t0 := pyUpper (pyStrip timeStr.data)
  let hasAm := containsSub (("AM").data) t0
  let hasPm := containsSub (("PM").data) t0
  let hms? : Option (Int × Int × Int) :=
    if !hasAm && !hasPm then hms24 t0
    else
      let t1 := pyStrip (removeSub2 'P' 'M' (removeSub2 'A' 'M' t0))
      (hms12 t1).map fun r => (meridiemAdjust hasPm r.1, r.2.1, r.2.2)
  match hms? with
  | some (h, m, s) =>
    if validHms h m s then fmtTimestamp dateOrd h.toNat m.toNat s.toNat
    else fmtTimestamp dateOrd 10 0 0
  | none => fmtTimestamp dateOrd 10 0 0

/-- Strict `H[:M[:S]]` parse used by the claimed contract of TimeNormalizer:
one, two or three colon-separated integer fields; four or more fields are a
parse failure. -/
def hmsStrict (t : List Char) : Option (Int × Int × Int) :=
  let parts := splitOnChar ':' t
  if parts.length == 1 then do
    let h ← pyInt (parts.getD 0 [])
    pure (h, 0, 0)
  else if parts.length == 2 then do
    let h ← pyInt (parts.getD 0 [])
    let m ← pyInt (parts.getD 1 [])
    pure (h, m, 0)
  else if parts.length == 3 then do
    let h ← pyInt (parts.getD 0 [])
    let m ← pyInt (parts.getD 1 [])
    let s ← pyInt (parts.getD 2 [])
    pure (h, m, s)
  else none

/-- TimeNormalizer.normalize as the claim states it (spec section 4.2):
uppercase and trim; with no AM/PM parse as 24-hour `H[:M[:S]]`; otherwise
strip the meridiem marker, parse `H[:M[:S]]`, and apply the 12-hour
conversion; on any parse failure return 10:00:00 on the given date. -/
def normalizeSpecClaim (timeStr : String) (dateOrd : Nat) : String :=
  let t0 := pyUpper (pyStrip timeStr.data)
  let hasAm := containsSub (("AM").data) t0
  let hasPm := containsSub (("PM").data) t0
  let hms? : Option (Int × Int × Int) :=
    if !hasAm && !hasPm then hmsStrict t0
    else
      let t1 := pyStrip (removeSub2 'P' 'M' (removeSub2 'A' 'M' t0))
      (hmsStrict t1).map fun r => (meridiemAdjust hasPm r.1, r.2.1, r.2.2)
  match hms? with
  | some (h, m, s) =>
    if validHms h m s then fmtTimestamp dateOrd h.toNat m.toNat s.toNat
    else fmtTimestamp dateOrd 10 0 0
  | none => fmtTimestamp dateOrd 10 0 0

/-- Amended `H[:M[:S]]` parse: as the strict one on up to three
colon-separated fields; with four or more fields, a 24-hour text keeps only
the first field as the hour, and a meridiem text keeps the first three fields
and ignores the rest. -/
def hmsStrictAmended (twelveHour : Bool) (t : List Char) : Option (Int × Int × Int) :=
  let parts := splitOnChar ':' t
  if parts.length ≤ 3 then hmsStrict t
  else if twelveHour then do
    let h ← pyInt (parts.getD 0 [])
    let m ← pyInt (parts.getD 1 [])
    let s ← pyInt (parts.getD 2 [])
    pure (h, m, s)
  else do
    let h ← pyInt (parts.getD 0 [])
    pure (h, 0, 0)

/-- TimeNormalizer.normalize as amended: identical to the claimed contract
except on inputs with four or more colon-separated fields, which are not a
parse failure: without AM/PM only the first field is used (as the hour); with
AM/PM the first three fields are used and later fields are ignored. -/
def normalizeSpecAmended (timeStr : String) (dateOrd : Nat) : String :=
  let t0 := pyUpper (pyStrip timeStr.data)
  let hasAm := containsSub (("AM").data) t0
  let hasPm := containsSub (("PM").data) t0
  let hms? : Option (Int × Int × Int) :=
    if !hasAm && !hasPm then hmsStrictAmended false t0
    else
      let t1 := pyStrip (removeSub2 'P' 'M' (removeSub2 'A' 'M' t0))
      (hmsStrictAmended true t1).map fun r => (meridiemAdjust hasPm r.1, r.2.1, r.2.2)
  match hms? with
  | some (h, m, s) =>
    if validHms h m s then fmtTimestamp dateOrd h.toNat m.toNat s.toNat
    else fmtTimestamp dateOrd 10 0 0
  | none => fmtTimestamp dateOrd 10 0 0

/-! ## `generate_reminders` (discharge_parser_service.py, lines 97-188)

The source reads `datetime.now().date()` for its defaulting; here that value
is the explicit `today` parameter, so the function is a deterministic image of
the source with the ambient clock made an input. -/

/-- Day-selection policy of `generate_reminders` (lines 137-160): explicit
non-empty `days` verbatim; else daily and custom take all seven days;
twice_a_week takes the start weekday and the weekday three days later (mod 7);
weekly takes the start weekday; alternate_days takes the fixed
Monday/Wednesday/Friday/Sunday set. -/
def daysToUse (days : List DayEnum) (frequency : FrequencyEnum) (s : Nat) : List DayEnum :=
  if !days.isEmpty then days
  else match frequency with
  | .daily => dayEnumList
  | .twice_a_week => [dayEnumOfIdx (weekdayIdx s), dayEnumOfIdx ((weekdayIdx s + 3) % 7)]
  | .weekly => [dayEnumOfIdx (weekdayIdx s)]
  | .alternate_days => [.monday, .wednesday, .friday, .sunday]
  | _ => dayEnumList

/-- One reminder of `generate_reminders` (lines 176-182). -/
def mkReminder (tm : String) (dte : Nat) : Reminder :=
  ⟨dayEnumOfDate dte, dte, convert_time_to_iso tm dte, false, false⟩

/-- The `while current_date <= end_date` loop of `generate_reminders`
(lines 163-186), iterating `cnt` days starting at `cur`. -/
def remLoop (daysUse : List DayEnum) (timing : List String) : Nat → Nat → List Reminder
  | 0, _ => []
  | n + 1, cur =>
    (if daysUse.contains (dayEnumOfDate cur) then timing.map (mkReminder · cur) else [])
      ++ remLoop daysUse timing n (cur + 1)

/-- `generate_reminders(days, timing, frequency, start_date, end_date)`
(lines 97-188), with `today` standing for `datetime.now().date()`: empty for
as_needed; start defaults to tomorrow, end to start + 30 days, timing to
`["10:00AM"]`; then one reminder per in-range date whose weekday is selected
and per timing entry. -/
def generate_reminders (days : List DayEnum) (timing : List String)
    (frequency : FrequencyEnum) (start_date end_date : Option Nat)
    (today : Nat) : List Reminder :=
  if frequency = .as_needed then []
  else
    let s := start_date.getD (today + 1)
    let e := end_date.getD (s + 30)
    let timing2 := if timing.isEmpty then [("10:00AM")] else timing
    remLoop (daysToUse days frequency s) timing2 (e + 1 - s) s

/-! ## A model of Python values parsed from JSON -/

/-- Values produced by Python's `json.loads`: numbers keep their literal
spelling (the claims under verification never compare numeric spellings), and
objects are insertion-ordered key/value lists as CPython dicts are. -/
inductive Json where
  | null : Json
  | bool (b : Bool) : Json
  | num (lex : String) : Json
  | str (s : String) : Json
  | arr (elems : List Json) : Json
  | obj (fields : List (String × Json)) : Json
  deriving Repr

/-- Dict insertion with CPython semantics: a repeated key keeps its original
position and takes the later value. -/
def objInsert : List (String × Json) → String → Json → List (String × Json)
  | [], k, v => [(k, v)]
  | (k0, v0) :: rest, k, v =>
    if k0 == k then (k0, v) :: rest else (k0, v0) :: objInsert rest k v

/-- All mantissa digits of a JSON number literal are zero (its float/int value
is zero). -/
def numLexIsZero (lex : String) : Bool :=
  let mantissa := lex.data.takeWhile (fun c => !(c == 'e' || c == 'E'))
  mantissa.all fun c => !c.isDigit || c == '0'

/-- Python truthiness (`bool(x)`) of a parsed JSON value. -/
def truthy : Json → Bool
  | .null => false
  | .bool b => b
  | .num lex => !numLexIsZero lex
  | .str s => !s.isEmpty
  | .arr xs => !xs.isEmpty
  | .obj kvs => !kvs.isEmpty

/-! ## A model of Python `json.loads` -/

/-- Skip the whitespace Python's json scanner skips. -/
def skipJsonWs (cs : List Char) : List Char :=
  cs.dropWhile isJsonSpace

/-- Value of one hex digit. -/
def hexVal (c : Char) : Option Nat :=
  if c.isDigit then some (c.toNat - 48)
  else if 'a' ≤ c && c ≤ 'f' then some (c.toNat - 87)
  else if 'A' ≤ c && c ≤ 'F' then some (c.toNat - 55)
  else none

/-- Decode the body of a JSON string literal (the opening quote already
consumed), returning the decoded characters and the input after the closing
quote.  Escapes are the JSON ones; raw control characters are rejected as in
Python's strict mode; a `\uXXXX`/`\uXXXX` surrogate pair combines, and a lone
surrogate is modelled as a failure (CPython would keep it, but such strings
never arise in the properties below). -/
def parseStrChars : Nat → List Char → Except Unit (List Char × List Char)
  | 0, _ => .error ()
  | _ + 1, [] => .error ()
  | f + 1, c :: rest =>
    if c == dquote then .ok ([], rest)
    else if c == '\\' then
      match rest with
      | [] => .error ()
      | e :: rest2 =>
        let simple : Option Char :=
          if e == dquote then some dquote
          else if e == '\\' then some '\\'
          else if e == '/' then some '/'
          else if e == 'b' then some '\x08'
          else if e == 'f' then some '\x0c'
          else if e == 'n' then some '\n'
          else if e == 'r' then some '\r'
          else if e == 't' then some '\t'
          else none
        match simple with
        | some ch => (parseStrChars f rest2).map fun r => (ch :: r.1, r.2)
        | none =>
          if e == 'u' then
            match rest2 with
            | h1 :: h2 :: h3 :: h4 :: rest3 =>
              match hexVal h1, hexVal h2, hexVal h3, hexVal h4 with
              | some a, some b, some c2, some d =>
                let code := ((a * 16 + b) * 16 + c2) * 16 + d
                if code < 0xD800 || 0xE000 ≤ code then
                  (parseStrChars f rest3).map fun r => (Char.ofNat code :: r.1, r.2)
                else if code ≤ 0xDBFF then
                  match rest3 with
                  | b1 :: b2 :: l1 :: l2 :: l3 :: l4 :: rest4 =>
                    if b1 == '\\' && b2 == 'u' then
                      match hexVal l1, hexVal l2, hexVal l3, hexVal l4 with
                      | some a2, some b2v, some c2v, some d2 =>
                        let lo := ((a2 * 16 + b2v) * 16 + c2v) * 16 + d2
                        if 0xDC00 ≤ lo && lo ≤ 0xDFFF then
                          let cp := 0x10000 + (code - 0xD800) * 0x400 + (lo - 0xDC00)
                          (parseStrChars f rest4).map fun r => (Char.ofNat cp :: r.1, r.2)
                        else .error ()
                      | _, _, _, _ => .error ()
                    else .error ()
                  | _ => .error ()
                else .error ()
              | _, _, _, _ => .error ()
            | _ => .error ()
          else .error ()
    else if c.toNat < 0x20 then .error ()
    else (parseStrChars f rest).map fun r => (c :: r.1, r.2)

/-- Lex a JSON number (`-?(0|[1-9]\d*)(\.\d+)?([eE][+-]?\d+)?`), returning the
lexeme and the rest; the optional parts are consumed only when complete, as
the scanner's regex does. -/
def parseNumberLex (cs : List Char) : Option (List Char × List Char) :=
  let (sgn, cs1) : List Char × List Char :=
    match cs with
    | c :: r => if c == '-' then ([c], r) else ([], cs)
    | [] => ([], cs)
  match cs1 with
  | [] => none
  | c :: r =>
    if !c.isDigit then none
    else
      let (ipart, cs2) : List Char × List Char :=
        if c == '0' then ([c], r)
        else (c :: r.takeWhile Char.isDigit, r.dropWhile Char.isDigit)
      let (fpart, cs3) : List Char × List Char :=
        match cs2 with
        | p :: r2 =>
          if p == '.' then
            let ds := r2.takeWhile Char.isDigit
            if ds.isEmpty then ([], cs2) else (p :: ds, r2.drop ds.length)
          else ([], cs2)
        | [] => ([], cs2)
      let (epart, cs4) : List Char × List Char :=
        match cs3 with
        | p :: r2 =>
          if p == 'e' || p == 'E' then
            let (es, r3) : List Char × List Char :=
              match r2 with
              | q :: r4 => if q == '+' || q == '-' then ([q], r4) else ([], r2)
              | [] => ([], r2)
            let ds := r3.takeWhile Char.isDigit
            if ds.isEmpty then ([], cs3) else (p :: (es ++ ds), r3.drop ds.length)
          else ([], cs3)
        | [] => ([], cs3)
      some (sgn ++ ipart ++ fpart ++ epart, cs4)

mutual

/-- Parse one JSON value at the head of the input (no leading whitespace),
returning it and the rest.  Python's scanner also accepts the `NaN`,
`Infinity` and `-Infinity` constants by default. -/
def parseVal : Nat → List Char → Except Unit (Json × List Char)
  | 0, _ => .error ()
  | _ + 1, [] => .error ()
  | f + 1, c :: rest =>
    if c == lbrace then
      let body := skipJsonWs rest
      match body with
      | b :: r2 => if b == rbrace then .ok (.obj [], r2) else parseObjMembers f body []
      | [] => .error ()
    else if c == '[' then
      let body := skipJsonWs rest
      match body with
      | b :: r2 => if b == ']' then .ok (.arr [], r2) else parseArrMembers f body []
      | [] => .error ()
    else if c == dquote then
      (parseStrChars f rest).map fun r => (Json.str (String.mk r.1), r.2)
    else if (("true").data).isPrefixOf (c :: rest) then .ok (.bool true, (c :: rest).drop 4)
    else if (("false").data).isPrefixOf (c :: rest) then .ok (.bool false, (c :: rest).drop 5)
    else if (("null").data).isPrefixOf (c :: rest) then .ok (.null, (c :: rest).drop 4)
    else if (("NaN").data).isPrefixOf (c :: rest) then .ok (.num ("NaN"), (c :: rest).drop 3)
    else if (("Infinity").data).isPrefixOf (c :: rest) then
      .ok (.num ("Infinity"), (c :: rest).drop 8)
    else if (("-Infinity").data).isPrefixOf (c :: rest) then
      .ok (.num ("-Infinity"), (c :: rest).drop 9)
    else
      match parseNumberLex (c :: rest) with
      | some (lex, r) => .ok (.num (String.mk lex), r)
      | none => .error ()

/-- Parse the members of a non-empty object, starting at a key. -/
def parseObjMembers : Nat → List Char → List (String × Json) → Except Unit (Json × List Char)
  | 0, _, _ => .error ()
  | _ + 1, [], _ => .error ()
  | f + 1, c :: rest, acc =>
    if c == dquote then
      match parseStrChars f rest with
      | .error _ => .error ()
      | .ok (kcs, r1) =>
        match skipJsonWs r1 with
        | c2 :: r2 =>
          if c2 == ':' then
            match parseVal f (skipJsonWs r2) with
            | .error _ => .error ()
            | .ok (v, r3) =>
              let acc2 := objInsert acc (String.mk kcs) v
              match skipJsonWs r3 with
              | c3 :: r4 =>
                if c3 == ',' then parseObjMembers f (skipJsonWs r4) acc2
                else if c3 == rbrace then .ok (.obj acc2, r4)
                else .error ()
              | [] => .error ()
          else .error ()
        | [] => .error ()
    else .error ()

/-- Parse the elements of a non-empty array, starting at a value. -/
def parseArrMembers : Nat → List Char → List Json → Except Unit (Json × List Char)
  | 0, _, _ => .error ()
  | f + 1, cs, acc =>
    match parseVal f cs with
    | .error _ => .error ()
    | .ok (v, r1) =>
      match skipJsonWs r1 with
      | c2 :: r2 =>
        if c2 == ',' then parseArrMembers f (skipJsonWs r2) (v :: acc)
        else if c2 == ']' then .ok (.arr (v :: acc).reverse, r2)
        else .error ()
      | [] => .error ()

end

/-- Python `json.loads` on a character list: skip surrounding whitespace,
parse exactly one value, require the end of the input. -/
def pyJsonLoads (cs : List Char) : Except Unit Json :=
  match parseVal (4 * cs.length + 16) (skipJsonWs cs) with
  | .ok (v, rest) => if (skipJsonWs rest).isEmpty then .ok v else .error ()
  | .error _ => .error ()

/-! ## The text rewrites of `robust_json_parse` (lines 311-447)

Each `re.sub`/`re.search` call of the source is modelled by a scanner over the
character list.  The scanners use an explicit fuel argument of at least
`length + 1`; every step consumes at least one character, so the fuel never
runs out on the wrapper's call. -/

/-- Three backticks, the code-fence marker. -/
def btick3 : List Char := [btick, btick, btick]

/-- The optional `json`/`JSON` tag after an opening fence marker. -/
def fence1Tag (cs : List Char) : List Char :=
  if (("json").data).isPrefixOf cs then cs.drop 4
  else if (("JSON").data).isPrefixOf cs then cs.drop 4
  else cs

/-- Everything one match of `^```(?:json|JSON)?\s*\n?` consumes, starting at
the fence marker: the three backticks, the optional tag, and the greedy `\s*`
(which already swallows any newline, leaving `\n?` empty). -/
def fence1Consume (cs : List Char) : List Char :=
  (fence1Tag (cs.drop 3)).drop ((fence1Tag (cs.drop 3)).takeWhile isPySpace).length

/-- Whether the character just before the position after such a match is a
newline (the MULTILINE line-start state for the continued scan). -/
def fence1Nl (cs : List Char) : Bool :=
  match ((fence1Tag (cs.drop 3)).takeWhile isPySpace).getLast? with
  | some x => x == '\n'
  | none => false

/-- One scanning step family for
`re.sub(r'^```(?:json|JSON)?\s*\n?', '', text, flags=re.MULTILINE)`:
at each line start, a fence marker, an optional `json`/`JSON` tag and all
following whitespace are removed. -/
def fenceSub1Aux : Nat → Bool → List Char → List Char
  | 0, _, cs => cs
  | f + 1, atStart, cs =>
    match cs with
    | [] => []
    | c :: rest =>
      if atStart && btick3.isPrefixOf cs then
        fenceSub1Aux f (fence1Nl cs) (fence1Consume cs)
      else c :: fenceSub1Aux f (c == '\n') rest

/-- The first fence-stripping substitution of `robust_json_parse` (line 328). -/
def fenceSub1 (cs : List Char) : List Char :=
  fenceSub1Aux (cs.length + 1) true cs

/-- Match attempt at the current position for
`re.sub(r'\n?```\s*$', '', text, flags=re.MULTILINE)`: an optional newline, a
fence marker, then whitespace up to a line end (the greedy `\s*` backtracks to
the last newline inside the whitespace run unless the run reaches the end of
the string).  Returns the input after the match when one starts here. -/
def fence2MatchCore (body : List Char) : Option (List Char) :=
  if btick3.isPrefixOf body then
    if ((body.drop 3).drop ((body.drop 3).takeWhile isPySpace).length).isEmpty then
      some ((body.drop 3).drop ((body.drop 3).takeWhile isPySpace).length)
    else
      match (((body.drop 3).takeWhile isPySpace).reverse.findIdx? (· == '\n')).map
          (fun i => ((body.drop 3).takeWhile isPySpace).length - 1 - i) with
      | some j => some ((body.drop 3).drop j)
      | none => none
  else none

/-- Match attempt including the optional leading newline. -/
def fence2Match (cs : List Char) : Option (List Char) :=
  match cs with
  | c :: rest => if c == '\n' then fence2MatchCore rest else fence2MatchCore cs
  | [] => none

/-- Scanner for the second fence-stripping substitution (line 329). -/
def fenceSub2Aux : Nat → List Char → List Char
  | 0, cs => cs
  | f + 1, cs =>
    match fence2Match cs with
    | some rest => fenceSub2Aux f rest
    | none =>
      match cs with
      | [] => []
      | c :: rest => c :: fenceSub2Aux f rest

/-- The second fence-stripping substitution of `robust_json_parse`. -/
def fenceSub2 (cs : List Char) : List Char :=
  fenceSub2Aux (cs.length + 1) cs

/-- Model of `re.search(r'\{.*\}', text, re.DOTALL)` followed by taking the
matched group (lines 333-335): the substring from the first opening brace to
the last closing brace, when the latter lies after the former; otherwise the
text is left unchanged. -/
def braceExtract (cs : List Char) : List Char :=
  if (((cs.dropWhile fun c => !(c == lbrace)).reverse.dropWhile
        fun c => !(c == rbrace)).reverse).isEmpty then
    cs
  else
    ((cs.dropWhile fun c => !(c == lbrace)).reverse.dropWhile
      fun c => !(c == rbrace)).reverse

/-- Scanner for `re.sub(r',(\s*[}\]])', r'\1', text)` (line 339): every comma
followed by optional whitespace and a closing brace or bracket is dropped,
keeping the whitespace and the bracket; the scan resumes after the bracket. -/
def commaFixAux : Nat → List Char → List Char
  | 0, cs => cs
  | f + 1, cs =>
    match cs with
    | [] => []
    | c :: rest =>
      if c == ',' then
        let ws := rest.takeWhile isPySpace
        let after := rest.drop ws.length
        match after with
        | b :: rest2 =>
          if b == rbrace || b == ']' then ws ++ b :: commaFixAux f rest2
          else c :: commaFixAux f rest
        | [] => c :: commaFixAux f rest
      else c :: commaFixAux f rest

/-- Trailing-comma substitution of `robust_json_parse`. -/
def commaFix (cs : List Char) : List Char :=
  commaFixAux (cs.length + 1) cs

/-- Cut one line at its first `//`, as one match of
`re.sub(r'//.*?$', '', text, flags=re.MULTILINE)` does. -/
def cutAtSlashSlash : List Char → List Char
  | [] => []
  | [c] => [c]
  | c :: d :: rest =>
    if c == '/' && d == '/' then []
    else c :: cutAtSlashSlash (d :: rest)

/-- Line-comment substitution of `robust_json_parse` (line 342). -/
def lineCommentStrip (cs : List Char) : List Char :=
  List.intercalate ['\n'] ((splitOnChar '\n' cs).map cutAtSlashSlash)

/-- Skip up to and including the first `*/`, for the non-greedy block-comment
pattern; `none` when no closing marker exists. -/
def dropThroughStarSlash : List Char → Option (List Char)
  | [] => none
  | [_] => none
  | c :: d :: rest =>
    if c == '*' && d == '/' then some rest
    else dropThroughStarSlash (d :: rest)

/-- Scanner for `re.sub(r'/\*.*?\*/', '', text, flags=re.DOTALL)` (line 345). -/
def blockCommentStripAux : Nat → List Char → List Char
  | 0, cs => cs
  | f + 1, cs =>
    match cs with
    | [] => []
    | c :: rest =>
      if c == '/' then
        match rest with
        | d :: rest2 =>
          if d == '*' then
            match dropThroughStarSlash rest2 with
            | some r => blockCommentStripAux f r
            | none => c :: blockCommentStripAux f rest
          else c :: blockCommentStripAux f rest
        | [] => [c]
      else c :: blockCommentStripAux f rest

/-- Block-comment substitution of `robust_json_parse`. -/
def blockCommentStrip (cs : List Char) : List Char :=
  blockCommentStripAux (cs.length + 1) cs

/-- Scanner for `re.sub(r"'([^']*)'", r'"\1"', text)` (line 410): each pair of
single quotes with no single quote between them becomes a pair of double
quotes. -/
def squoteFixAux : Nat → List Char → List Char
  | 0, cs => cs
  | f + 1, cs =>
    match cs with
    | [] => []
    | c :: rest =>
      if c == squote then
        let mid := rest.takeWhile fun x => !(x == squote)
        let after := rest.drop mid.length
        match after with
        | _ :: rest2 => dquote :: (mid ++ dquote :: squoteFixAux f rest2)
        | [] => c :: squoteFixAux f rest
      else c :: squoteFixAux f rest

/-- Single-quote substitution of `robust_json_parse`. -/
def squoteFix (cs : List Char) : List Char :=
  squoteFixAux (cs.length + 1) cs

/-- Strategy 7/8 prefix trim (lines 374-376, 399-401): drop the text before
the first opening brace only when `find` returns a strictly positive index. -/
def trimBeforeFirstBrace (cs : List Char) : List Char :=
  match cs.findIdx? (· == lbrace) with
  | some i => if 0 < i then cs.drop i else cs
  | none => cs

/-- Index of the last occurrence of `c`, modelling `str.rfind`. -/
def lastIdxOf (c : Char) (cs : List Char) : Option Nat :=
  (cs.reverse.findIdx? (· == c)).map fun i => cs.length - 1 - i

/-- Strategy 7/8 suffix trim (lines 379-381, 404-406): keep the text up to the
last closing brace only when `rfind` returns a strictly positive index that is
not already the last position. -/
def trimAfterLastClose (cs : List Char) : List Char :=
  match lastIdxOf rbrace cs with
  | some j => if 0 < j && j < cs.length - 1 then cs.take (j + 1) else cs
  | none => cs

/-- The cleanup chain of `robust_json_parse` (lines 326-345): fence strip,
`strip()`, brace extraction, trailing-comma fix, comment strips, in source
order. -/
def cleanedText (cs : List Char) : List Char :=
  blockCommentStrip (lineCommentStrip (commaFix (braceExtract
    (pyStrip (fenceSub2 (fenceSub1 cs))))))

/-- `robust_json_parse(text)` (lines 311-447) on a character list: the cleanup
chain (fence strip, `strip()`, brace extraction, trailing-comma fix, comment
strips), then the ordered parse attempts — cleaned text, original text,
original with only the trailing-comma fix, strategy 7 (brace-trim the cleaned
text and re-fix commas), strategy 8 (additionally rewrite single quotes) —
and finally the `HTTPException` failure path, modelled by `Except.error`. -/
def robustJsonParseL (cs : List Char) : Except Unit Json :=
  let t7 := cleanedText cs
  match pyJsonLoads t7 with
  | .ok v => .ok v
  | .error _ =>
    match pyJsonLoads cs with
    | .ok v => .ok v
    | .error _ =>
      match pyJsonLoads (commaFix cs) with
      | .ok v => .ok v
      | .error _ =>
        let s7 := commaFix (trimAfterLastClose (trimBeforeFirstBrace t7))
        match pyJsonLoads s7 with
        | .ok v => .ok v
        | .error _ =>
          let s8 := commaFix (squoteFix (trimAfterLastClose (trimBeforeFirstBrace t7)))
          match pyJsonLoads s8 with
          | .ok v => .ok v
          | .error _ => .error ()

/-- `robust_json_parse` on a string. -/
def robust_json_parse (s : String) : Except Unit Json :=
  robustJsonParseL s.data

/-! ## The medication and followup record builders
(`parse_discharge_summary_with_vision`, lines 576-701)

Python exceptions that escape the builders' narrow `except` clauses are
modelled by `Except.error`; exceptions they catch are folded into the
fallback value the source substitutes. -/

/-- The Python exceptions that can escape the builders. -/
inductive PyErr where
  | typeError
  | attributeError
  | validationError
  deriving DecidableEq, Repr

/-- `mapping.get(key)` on a parsed JSON object (keys are unique, as
`json.loads` produces them). -/
def getKey (e : List (String × Json)) (k : String) : Option Json :=
  (e.find? fun p => p.1 == k).map (·.2)

/-- Python iteration over a value: strings yield their characters, lists their
elements, dicts their keys; other values raise `TypeError`. -/
def pyIter : Json → Except PyErr (List Json)
  | .str s => .ok (s.data.map fun c => Json.str (String.mk [c]))
  | .arr xs => .ok xs
  | .obj kvs => .ok (kvs.map fun p => Json.str p.1)
  | _ => .error .typeError

/-- The `start_date`/`end_date` handling (lines 578-590): a truthy value is
fed to `strptime("%Y-%m-%d")`, and both `ValueError` and `TypeError` are
caught, leaving `None`. -/
def parseDateField (e : List (String × Json)) (k : String) : Option Nat :=
  match getKey e k with
  | some (Json.str s) => if truthy (Json.str s) then pyStrptimeYmd s.data else none
  | _ => none

/-- The `frequency`/`status` handling (lines 592-598, 629-634): a truthy value
has `.lower()` called on it — an `AttributeError` escapes for a non-string —
and an unknown enum value (`ValueError`) is caught, keeping the default. -/
def parseEnumField (α : Type) (e : List (String × Json)) (k : String)
    (parse : String → Option α) (dflt : α) : Except PyErr α :=
  match getKey e k with
  | none => .ok dflt
  | some v =>
    if truthy v then
      match v with
      | .str s => .ok ((parse (pyLowerStr s)).getD dflt)
      | _ => .error .attributeError
    else .ok dflt

/-- The `timing` handling (lines 600-609): iterate a truthy `timing` value and
keep the stripped truthy strings; the block at lines 611-619 computes unused
locals and changes nothing. -/
def parseTimingField (e : List (String × Json)) : Except PyErr (List String) :=
  let td := (getKey e ("timing")).getD (Json.arr [])
  if truthy td then
    match pyIter td with
    | .error er => .error er
    | .ok xs =>
      .ok (xs.filterMap fun t =>
        match t with
        | .str s => if truthy (Json.str s) then some (pyStripStr s) else none
        | _ => none)
  else .ok []

/-- The `days` loop body (lines 622-627): each element has `.lower()` called
on it — `AttributeError` escapes for a non-string — and an unknown day
(`ValueError`) is silently dropped. -/
def collectDays : List Json → Except PyErr (List DayEnum)
  | [] => .ok []
  | Json.str s :: rest =>
    match collectDays rest with
    | .error er => .error er
    | .ok ds =>
      match parseDayEnum (pyLowerStr s) with
      | some d => .ok (d :: ds)
      | none => .ok ds
  | _ :: _ => .error .attributeError

/-- The `days` handling: `med_data.get("days", [])` is iterated directly (no
truthiness guard), so a non-iterable value raises `TypeError`. -/
def parseDaysField (e : List (String × Json)) : Except PyErr (List DayEnum) :=
  match pyIter ((getKey e ("days")).getD (Json.arr [])) with
  | .error er => .error er
  | .ok xs => collectDays xs

/-- The `med_data.get(k) or default` idiom under pydantic's `str` field
validation (lines 646-647): a falsy or missing value becomes the default, a
truthy non-string raises a pydantic `ValidationError`. -/
def strOrDefault (e : List (String × Json)) (k dflt : String) : Except PyErr String :=
  match getKey e k with
  | none => .ok dflt
  | some v =>
    if truthy v then
      match v with
      | .str s => .ok s
      | _ => .error .validationError
    else .ok dflt

/-- MedicationRecordBuilder: the per-entry body of the medications loop
(lines 576-656), with `today` standing for `datetime.now().date()` inside
`generate_reminders`.  Field order follows the source; an escaping exception
aborts the whole parse (it is caught only by the surrounding
`except Exception`, which raises an `HTTPException`). -/
def buildMedication (today : Nat) (e : List (String × Json)) :
    Except PyErr MedicationDetail :=
  let start_date := parseDateField e ("start_date")
  let end_date := parseDateField e ("end_date")
  match parseEnumField FrequencyEnum e ("frequency") parseFrequency .daily with
  | .error er => .error er
  | .ok frequency =>
    match parseTimingField e with
    | .error er => .error er
    | .ok timing =>
      match parseDaysField e with
      | .error er => .error er
      | .ok days =>
        match parseEnumField MedicationStatus e ("status") parseMedicationStatus .active with
        | .error er => .error er
        | .ok status =>
          match strOrDefault e ("name") ("Unknown") with
          | .error er => .error er
          | .ok name =>
            match strOrDefault e ("dosage") ("Not specified") with
            | .error er => .error er
            | .ok dosage =>
              .ok ⟨name, dosage, start_date, end_date, timing, days, frequency, status,
                generate_reminders days timing frequency start_date end_date today⟩

/-- `BillDetail` (app/schemas/bills.py). -/
structure BillDetail where
  name : String
  cost : String
  deriving DecidableEq, Repr

/-- `BillParsed` (app/schemas/bills.py). -/
structure BillParsed where
  name : String
  details : List BillDetail
  total : String
  deriving DecidableEq, Repr

/-- `Biomarker` (app/schemas/reports.py). -/
structure Biomarker where
  name : String
  range : String
  value : String
  deriving DecidableEq, Repr

/-- `ReportParsed` (app/schemas/reports.py). -/
structure ReportParsed where
  name : String
  reason : String
  biomarkers : List Biomarker
  deriving DecidableEq, Repr

/-- One bill upload: the filename plus the modelled outcomes of
`process_pdf_bill` (URL and page count) and `parse_bill_with_vision`. -/
structure BillDoc where
  filename : Option String
  upload : Except PyErr (String × Nat)
  parse : Except PyErr BillParsed

/-- One report upload, analogously; the vision call also receives the
medication list and diagnosis as context. -/
structure ReportDoc where
  filename : Option String
  upload : Except PyErr (String × Nat)
  parse : List Json → Option String → Except PyErr ReportParsed

/-- The bill dict appended to `bills_list` (lines 249-255). -/
structure BillDict where
  url : String
  name : String
  details : List BillDetail
  total : String
  deriving DecidableEq, Repr

/-- The report dict appended to `reports_list` (lines 319-325). -/
structure ReportDict where
  url : String
  name : String
  reason : String
  biomarkers : List Biomarker
  deriving DecidableEq, Repr

/-- File-kind validation (lines 218-220, 285-287):
`not filename or not filename.lower().endswith(".pdf")` skips the document. -/
def validPdfName : Option String → Bool
  | none => false
  | some s => !s.isEmpty && (".pdf").data.isSuffixOf (pyLower s.data)

/-- The bill loop (lines 213-265): per document, validate the file kind,
upload, parse, and append the structured dict; `continue` on validation
failure or any exception. -/
def processBills : List BillDoc → List BillDict
  | [] => []
  | doc :: rest =>
    let tail := processBills rest
    if !validPdfName doc.filename then tail
    else
      match doc.upload with
      | .error _ => tail
      | .ok (url, _) =>
        match doc.parse with
        | .error _ => tail
        | .ok pb => ⟨url, pb.name, pb.details, pb.total⟩ :: tail

/-- The report loop (lines 280-335), with the medication list and diagnosis
context the endpoint passes to every document of the batch. -/
def processReports (meds : List Json) (diagnosis : Option String) :
    List ReportDoc → List ReportDict
  | [] => []
  | doc :: rest =>
    let tail := processReports meds diagnosis rest
    if !validPdfName doc.filename then tail
    else
      match doc.upload with
      | .error _ => tail
      | .ok (url, _) =>
        match doc.parse meds diagnosis with
        | .error _ => tail
        | .ok pr => ⟨url, pr.name, pr.reason, pr.biomarkers⟩ :: tail

/-! ## Claim-level (spec-worded) descriptions

These definitions follow the wording of the claims under verification; the
theorems below compare them with the embedded source functions. -/

/-- Day-selection policy exactly as the claim words it. -/
def claimDaySet (days : List DayEnum) (freq : FrequencyEnum) (s : Nat) : List DayEnum :=
  if days ≠ [] then days
  else if freq = .daily ∨ freq = .custom then dayEnumList
  else if freq = .twice_a_week then
    [dayEnumOfIdx (weekdayIdx s), dayEnumOfIdx ((weekdayIdx s + 3) % 7)]
  else if freq = .weekly then [dayEnumOfIdx (weekdayIdx s)]
  else [.monday, .wednesday, .friday, .sunday]

/-- ScheduleExpander.expand exactly as claim C6 words it: one reminder per
(date in the inclusive window whose weekday is selected, entry of `timing`),
date-major, timing entries in input order, with the stated date defaults —
and no default for an empty `timing`. -/
def claimExpansion (days : List DayEnum) (timing : List String) (freq : FrequencyEnum)
    (sd ed : Option Nat) (today : Nat) : List Reminder :=
  let s := sd.getD (today + 1)
  let e := ed.getD (s + 30)
  ((List.range' s (e + 1 - s)).filter fun dte =>
    (claimDaySet days freq s).contains (dayEnumOfDate dte)).flatMap
    fun dte => timing.map (mkReminder · dte)

/-- The amended expansion: as the claim, plus the `timing` default
`["10:00AM"]` the source applies when `timing` is empty. -/
def claimExpansionAmended (days : List DayEnum) (timing : List String) (freq : FrequencyEnum)
    (sd ed : Option Nat) (today : Nat) : List Reminder :=
  claimExpansion days (if timing.isEmpty then [("10:00AM")] else timing) freq sd ed today

/-- Truth of an `Except` outcome. -/
def exceptOk {ε α : Type} : Except ε α → Bool
  | .ok _ => true
  | .error _ => false

/-- A bill document the loop fully processes. -/
def billOk (d : BillDoc) : Bool :=
  validPdfName d.filename && exceptOk d.upload && exceptOk d.parse

/-- The dict a successfully processed bill contributes. -/
def billDictOf (d : BillDoc) : BillDict :=
  match d.upload, d.parse with
  | .ok (u, _), .ok pb => ⟨u, pb.name, pb.details, pb.total⟩
  | _, _ => ⟨(""), (""), [], ("")⟩

/-- A report document the loop fully processes. -/
def reportOk (meds : List Json) (diagnosis : Option String) (d : ReportDoc) : Bool :=
  validPdfName d.filename && exceptOk d.upload && exceptOk (d.parse meds diagnosis)

/-- The dict a successfully processed report contributes. -/
def reportDictOf (meds : List Json) (diagnosis : Option String) (d : ReportDoc) : ReportDict :=
  match d.upload, d.parse meds diagnosis with
  | .ok (u, _), .ok pr => ⟨u, pr.name, pr.reason, pr.biomarkers⟩
  | _, _ => ⟨(""), (""), (""), []⟩

/-- A bill document on which an external step raises: the file-kind check
passes but the upload/rasterize await or the inference/extraction/domain
await fails. -/
def billFails (d : BillDoc) : Bool :=
  validPdfName d.filename && (!exceptOk d.upload || !exceptOk d.parse)

/-- A report document on which an external step raises. -/
def reportFails (meds : List Json) (diagnosis : Option String) (d : ReportDoc) : Bool :=
  validPdfName d.filename && (!exceptOk d.upload || !exceptOk (d.parse meds diagnosis))

/-! ## Helper lemmas -/

/-- The reminder loop enumerates the window, filters by selected weekday and
emits the timing block per surviving date. -/
theorem remLoop_eq (du : List DayEnum) (tm : List String) :
    ∀ (cnt cur : Nat),
      remLoop du tm cnt cur =
        ((List.range' cur cnt).filter fun dte => du.contains (dayEnumOfDate dte)).flatMap
          fun dte => tm.map (mkReminder · dte)
  | 0, _ => rfl
  | n + 1, cur => by
    show (if du.contains (dayEnumOfDate cur) then tm.map (mkReminder · cur) else [])
        ++ remLoop du tm n (cur + 1) = _
    rw [remLoop_eq du tm n (cur + 1)]
    show _ = ((cur :: List.range' (cur + 1) n).filter _).flatMap _
    rw [List.filter_cons]
    by_cases h : dayEnumOfDate cur ∈ du <;> simp [h]

/-- The claim's day-selection wording coincides with the source's (on the
frequencies the expansion reaches). -/
theorem claimDaySet_eq (days : List DayEnum) (freq : FrequencyEnum) (s : Nat)
    (h : freq ≠ .as_needed) :
    claimDaySet days freq s = daysToUse days freq s := by
  cases days <;> cases freq <;> simp_all [claimDaySet, daysToUse]

/-- `generate_reminders` on a non-as_needed frequency is the claimed
expansion with the source's timing default. -/
theorem generate_reminders_eq (days : List DayEnum) (timing : List String)
    (freq : FrequencyEnum) (sd ed : Option Nat) (today : Nat)
    (h : freq ≠ .as_needed) :
    generate_reminders days timing freq sd ed today =
      claimExpansionAmended days timing freq sd ed today := by
  simp only [generate_reminders, claimExpansionAmended, claimExpansion, if_neg h,
    remLoop_eq, claimDaySet_eq _ _ _ h]

/-- Splitting never produces the empty list of parts. -/
theorem splitOnChar_ne_nil (sep : Char) : ∀ t : List Char, splitOnChar sep t ≠ []
  | [] => by simp [splitOnChar]
  | c :: rest => by
    simp only [splitOnChar]
    split
    · simp
    · cases h : splitOnChar sep rest with
      | nil => exact absurd h (splitOnChar_ne_nil sep rest)
      | cons p ps => simp

/-- With no separator present, splitting yields the whole text as the one
part. -/
theorem splitOnChar_of_not_contains (sep : Char) :
    ∀ t : List Char, t.contains sep = false → splitOnChar sep t = [t]
  | [], _ => rfl
  | c :: rest, h => by
    simp only [List.contains_cons, Bool.or_eq_false_iff, beq_eq_false_iff_ne] at h
    have hc : (c == sep) = false := by
      rw [beq_eq_false_iff_ne]
      exact fun e => h.1 e.symm
    simp only [splitOnChar, hc, Bool.false_eq_true, if_false,
      splitOnChar_of_not_contains sep rest h.2]

/-- With a separator present, splitting yields at least two parts. -/
theorem splitOnChar_length_ge_two (sep : Char) :
    ∀ t : List Char, t.contains sep = true → 2 ≤ (splitOnChar sep t).length
  | [], h => by simp [List.contains] at h
  | c :: rest, h => by
    simp only [splitOnChar]
    by_cases hc : (c == sep) = true
    · simp only [hc, if_true, List.length_cons]
      have := List.length_pos_of_ne_nil (splitOnChar_ne_nil sep rest)
      omega
    · have hrest : rest.contains sep = true := by
        simp only [List.contains_cons, Bool.or_eq_true, beq_iff_eq] at h
        rcases h with h2 | h2
        · exact absurd (by simp [h2]) hc
        · exact h2
      have ih := splitOnChar_length_ge_two sep rest hrest
      simp only [Bool.not_eq_true] at hc
      cases hs : splitOnChar sep rest with
      | nil => exact absurd hs (splitOnChar_ne_nil sep rest)
      | cons p ps =>
        rw [hs] at ih
        simp only [hc, Bool.false_eq_true, if_false, hs, List.length_cons] at ih ⊢
        omega

/-- The source's 24-hour branch agrees with the amended strict parse. -/
theorem hms24_eq (t : List Char) : hms24 t = hmsStrictAmended false t := by
  by_cases hc : t.contains ':'
  · have h2 := splitOnChar_length_ge_two ':' t hc
    unfold hms24 hmsStrictAmended hmsStrict
    simp only [hc, if_true]
    by_cases hl2 : (splitOnChar ':' t).length = 2
    · simp [hl2]
    · by_cases hl3 : (splitOnChar ':' t).length = 3
      · simp [hl3]
      · have : ¬(splitOnChar ':' t).length ≤ 3 := by omega
        simp only [if_neg this, hl2, hl3]
        simp [hl2, hl3, show ((splitOnChar ':' t).length == 2) = false by simp [hl2],
          show ((splitOnChar ':' t).length == 3) = false by simp [hl3]]
  · have hs := splitOnChar_of_not_contains ':' t (by simpa using hc)
    unfold hms24 hmsStrictAmended hmsStrict
    simp [hc, hs]

/-- The source's meridiem branch agrees with the amended strict parse. -/
theorem hms12_eq (t : List Char) : hms12 t = hmsStrictAmended true t := by
  by_cases hc : t.contains ':'
  · have h2 := splitOnChar_length_ge_two ':' t hc
    unfold hms12 hmsStrictAmended hmsStrict
    simp only [hc, if_true]
    by_cases hl2 : (splitOnChar ':' t).length = 2
    · simp [hl2]
    · by_cases hl3 : (splitOnChar ':' t).length = 3
      · simp [hl3]
      · have hn3 : ¬(splitOnChar ':' t).length ≤ 3 := by omega
        simp [hl2, hl3, hn3, show 1 < (splitOnChar ':' t).length by omega,
          show 2 < (splitOnChar ':' t).length by omega]
  · have hs := splitOnChar_of_not_contains ':' t (by simpa using hc)
    unfold hms12 hmsStrictAmended hmsStrict
    simp [hc, hs]

/-- The as_needed early return of `generate_reminders` (line 118). -/
theorem generate_reminders_as_needed (days : List DayEnum) (timing : List String)
    (sd ed : Option Nat) (today : Nat) :
    generate_reminders days timing .as_needed sd ed today = [] := by
  simp [generate_reminders]

/-- The reminders field of a successfully built medication is exactly the
expansion of its own fields. -/
theorem buildMedication_ok (today : Nat) (e : List (String × Json))
    (m : MedicationDetail) (h : buildMedication today e = .ok m) :
    m.reminders =
      generate_reminders m.days m.timing m.frequency m.start_date m.end_date today := by
  unfold buildMedication at h
  repeat' split at h
  all_goals simp_all
  subst h
  rfl

/-! ## C5: the TimeNormalizer contract -/

/-- C5 counterexample: `"1:2:3:4"` has neither AM nor PM and is not of the
claimed `H[:M[:S]]` shape, so the claim requires the 10:00:00 fallback; the
source's length branch takes `int(parts[0])` as the hour and returns
01:00:00. -/
theorem c5_counterexample :
    convert_time_to_iso ("1:2:3:4") (mkDate 2024 3 1) = ("2024-03-01T01:00:00Z") ∧
    normalizeSpecClaim ("1:2:3:4") (mkDate 2024 3 1) = ("2024-03-01T10:00:00Z") ∧
    (("2024-03-01T01:00:00Z") : String) ≠ ("2024-03-01T10:00:00Z") :=
  ⟨rfl, rfl, by decide⟩

/-- C5 (amended): `convert_time_to_iso` never fails, always yields a
`YYYY-MM-DDTHH:MM:SSZ` timestamp on the given date, parses 24-hour input when
no AM/PM marker is present and applies the 12-hour conversion otherwise,
falling back to 10:00:00 on a parse failure — except that a text with four or
more colon-separated fields is not a failure: without AM/PM only the first
field is used as the hour, with AM/PM the first three fields are used.  The
claimed examples evaluate as stated. -/
theorem c5_time_normalizer_amended :
    (∀ t d, convert_time_to_iso t d = normalizeSpecAmended t d) ∧
    convert_time_to_iso ("6:00PM") (mkDate 2024 3 1) = ("2024-03-01T18:00:00Z") ∧
    convert_time_to_iso ("12:00AM") (mkDate 2024 3 1) = ("2024-03-01T00:00:00Z") ∧
    convert_time_to_iso ("12:00PM") (mkDate 2024 3 1) = ("2024-03-01T12:00:00Z") ∧
    convert_time_to_iso ("") (mkDate 2024 3 1) = ("2024-03-01T10:00:00Z") ∧
    convert_time_to_iso ("garbage") (mkDate 2024 3 1) = ("2024-03-01T10:00:00Z") := by
  refine ⟨fun t d => ?_, rfl, rfl, rfl, rfl, rfl⟩
  simp only [convert_time_to_iso, normalizeSpecAmended, hms24_eq, hms12_eq]

/-! ## C6: the ScheduleExpander expansion -/

/-- C6 counterexample: with an empty `timing` list the claim's "one reminder
per (date, entry of timing)" yields no reminders, but the source defaults
`timing` to `["10:00AM"]` and emits one reminder for the single in-window
date. -/
theorem c6_counterexample :
    generate_reminders [] [] .daily (some (mkDate 2024 3 4)) (some (mkDate 2024 3 4))
      (mkDate 2024 3 1) = [mkReminder ("10:00AM") (mkDate 2024 3 4)] ∧
    claimExpansion [] [] .daily (some (mkDate 2024 3 4)) (some (mkDate 2024 3 4))
      (mkDate 2024 3 1) = [] ∧
    [mkReminder ("10:00AM") (mkDate 2024 3 4)] ≠ ([] : List Reminder) :=
  ⟨rfl, rfl, by simp⟩

/-- C6 (amended): for every frequency other than as_needed the expansion is
exactly the claimed one — one reminder per (in-window date with selected
weekday, timing entry), dates ascending, timing entries in input order, with
the claimed day-set priority and date defaults — once `timing` is defaulted
to `["10:00AM"]` when empty, as the source does. -/
theorem c6_schedule_expansion_amended :
    ∀ (days : List DayEnum) (timing : List String) (freq : FrequencyEnum)
      (sd ed : Option Nat) (today : Nat), freq ≠ .as_needed →
      generate_reminders days timing freq sd ed today =
        claimExpansionAmended days timing freq sd ed today :=
  fun days timing freq sd ed today h => generate_reminders_eq days timing freq sd ed today h

/-- C6 witness: the claimed weekly example, evaluated concretely. -/
theorem c6_schedule_expansion_amended_witness :
    (FrequencyEnum.weekly ≠ FrequencyEnum.as_needed) ∧
    generate_reminders [] [("10:00AM")] .weekly (some (mkDate 2024 3 4))
      (some (mkDate 2024 3 18)) (mkDate 2024 3 1) =
      claimExpansionAmended [] [("10:00AM")] .weekly (some (mkDate 2024 3 4))
        (some (mkDate 2024 3 18)) (mkDate 2024 3 1) ∧
    generate_reminders [] [("10:00AM")] .weekly (some (mkDate 2024 3 4))
      (some (mkDate 2024 3 18)) (mkDate 2024 3 1) =
      [mkReminder ("10:00AM") (mkDate 2024 3 4), mkReminder ("10:00AM") (mkDate 2024 3 11),
       mkReminder ("10:00AM") (mkDate 2024 3 18)] :=
  ⟨by decide, c6_schedule_expansion_amended [] [("10:00AM")] .weekly (some (mkDate 2024 3 4))
    (some (mkDate 2024 3 18)) (mkDate 2024 3 1) (by decide), by rfl⟩

/-! ## C7: reminders and the as_needed frequency -/

/-- C7 counterexample: a medication whose end date precedes its start date
has frequency `daily` and an empty reminders list, so "reminders empty iff
as_needed" fails in the right-to-left direction. -/
theorem c7_counterexample :
    (buildMedication (mkDate 2024 3 1)
      [(("frequency"), Json.str ("daily")), (("start_date"), Json.str ("2024-03-10")),
       (("end_date"), Json.str ("2024-03-01"))]).map (fun m => (m.frequency, m.reminders)) =
      .ok (FrequencyEnum.daily, ([] : List Reminder)) ∧
    FrequencyEnum.daily ≠ FrequencyEnum.as_needed :=
  ⟨rfl, by decide⟩

/-- C7 (amended): as_needed always expands to no reminders — directly and
through the builder — and for every other frequency the expansion is empty
exactly when no date of the effective window has its weekday in the selected
day-set (in particular it is empty, despite a non-as_needed frequency,
whenever the end date precedes the start date). -/
theorem c7_reminders_amended :
    (∀ (days : List DayEnum) (timing : List String) (sd ed : Option Nat) (today : Nat),
      generate_reminders days timing .as_needed sd ed today = []) ∧
    (∀ (today : Nat) (e : List (String × Json)) (m : MedicationDetail),
      buildMedication today e = .ok m → m.frequency = .as_needed → m.reminders = []) ∧
    (∀ (days : List DayEnum) (timing : List String) (freq : FrequencyEnum)
      (sd ed : Option Nat) (today : Nat), freq ≠ .as_needed →
      (generate_reminders days timing freq sd ed today = [] ↔
        ∀ dte ∈ List.range' (sd.getD (today + 1))
          (ed.getD (sd.getD (today + 1) + 30) + 1 - sd.getD (today + 1)),
          (daysToUse days freq (sd.getD (today + 1))).contains (dayEnumOfDate dte) = false)) := by
  refine ⟨fun days timing sd ed today => generate_reminders_as_needed days timing sd ed today,
    fun today e m h hf => ?_, fun days timing freq sd ed today h => ?_⟩
  · rw [buildMedication_ok today e m h, hf]
    exact generate_reminders_as_needed _ _ _ _ _
  · have key : generate_reminders days timing freq sd ed today =
        ((List.range' (sd.getD (today + 1))
          (ed.getD (sd.getD (today + 1) + 30) + 1 - sd.getD (today + 1))).filter fun dte =>
            (daysToUse days freq (sd.getD (today + 1))).contains (dayEnumOfDate dte)).flatMap
          fun dte =>
            (if timing.isEmpty then [("10:00AM")] else timing).map (mkReminder · dte) := by
      simp only [generate_reminders, if_neg h, remLoop_eq]
    have htm : (if timing.isEmpty then [("10:00AM")] else timing) ≠ [] := by
      split
      · simp
      · rename_i hne
        simpa [List.isEmpty_iff] using hne
    rw [key]
    constructor
    · intro hnil dte hd
      by_contra hcontains
      rw [Bool.not_eq_false] at hcontains
      have hmem : dte ∈ (List.range' (sd.getD (today + 1))
          (ed.getD (sd.getD (today + 1) + 30) + 1 - sd.getD (today + 1))).filter
            (fun dte => (daysToUse days freq (sd.getD (today + 1))).contains (dayEnumOfDate dte)) :=
        List.mem_filter.mpr ⟨hd, hcontains⟩
      obtain ⟨t, ht⟩ := List.exists_mem_of_ne_nil _ htm
      have hmem2 : mkReminder t dte ∈ (([] : List Reminder)) := by
        rw [← hnil]
        exact List.mem_flatMap.mpr ⟨dte, hmem, List.mem_map_of_mem _ ht⟩
      exact absurd hmem2 (List.not_mem_nil _)
    · intro hall
      have : (List.range' (sd.getD (today + 1))
          (ed.getD (sd.getD (today + 1) + 30) + 1 - sd.getD (today + 1))).filter
            (fun dte => (daysToUse days freq (sd.getD (today + 1))).contains (dayEnumOfDate dte))
          = [] :=
        List.filter_eq_nil_iff.mpr fun a ha => by simpa using hall a ha
      rw [this]
      rfl

/-- C7 witness: the three amended parts at concrete inputs. -/
theorem c7_reminders_amended_witness :
    generate_reminders [] [("10:00AM")] .as_needed none none (mkDate 2024 3 1) = [] ∧
    (buildMedication (mkDate 2024 3 1) [(("frequency"), Json.str ("as_needed"))]).map
      (fun m => m.reminders) = .ok [] ∧
    generate_reminders [] [("10:00AM")] .daily (some (mkDate 2024 3 4))
      (some (mkDate 2024 3 4)) (mkDate 2024 3 1) ≠ [] := by
  refine ⟨c7_reminders_amended.1 [] [("10:00AM")] none none (mkDate 2024 3 1), ?_, ?_⟩
  · have hb : buildMedication (mkDate 2024 3 1) [(("frequency"), Json.str ("as_needed"))] =
        .ok ⟨("Unknown"), ("Not specified"), none, none, [], [], .as_needed, .active, []⟩ := rfl
    have h2 := c7_reminders_amended.2.1 (mkDate 2024 3 1)
      [(("frequency"), Json.str ("as_needed"))] _ hb rfl
    rw [hb]
    simp [Except.map, h2]
  · intro hnil
    have h3 := (c7_reminders_amended.2.2 [] [("10:00AM")] .daily (some (mkDate 2024 3 4))
      (some (mkDate 2024 3 4)) (mkDate 2024 3 1) (by decide)).mp hnil (mkDate 2024 3 4)
      (by decide)
    exact absurd h3 (by decide)

/-! ## C10: internal consistency of generated reminders -/

/-- C10: every reminder the expansion produces has its `day` field equal to
the weekday of its `datte` field, and both flags false at creation. -/
theorem c10_reminder_consistency :
    ∀ (days : List DayEnum) (timing : List String) (freq : FrequencyEnum)
      (sd ed : Option Nat) (today : Nat) (r : Reminder),
      r ∈ generate_reminders days timing freq sd ed today →
      r.day = dayEnumOfDate r.datte ∧ r.isreminded = false ∧ r.isresponded = false := by
  intro days timing freq sd ed today r hr
  by_cases h : freq = .as_needed
  · rw [h, generate_reminders_as_needed] at hr
    exact absurd hr (List.not_mem_nil r)
  · simp only [generate_reminders, if_neg h, remLoop_eq] at hr
    obtain ⟨dte, _, hr2⟩ := List.mem_flatMap.mp hr
    obtain ⟨t, _, rfl⟩ := List.mem_map.mp hr2
    exact ⟨rfl, rfl, rfl⟩

/-- C10 witness: a concrete reminder of a concrete expansion. -/
theorem c10_reminder_consistency_witness :
    (mkReminder ("10:00AM") (mkDate 2024 3 4)).day =
      dayEnumOfDate (mkReminder ("10:00AM") (mkDate 2024 3 4)).datte ∧
    (mkReminder ("10:00AM") (mkDate 2024 3 4)).isreminded = false ∧
    (mkReminder ("10:00AM") (mkDate 2024 3 4)).isresponded = false :=
  c10_reminder_consistency [] [("10:00AM")] .weekly (some (mkDate 2024 3 4))
    (some (mkDate 2024 3 18)) (mkDate 2024 3 1) _ (by decide)

/-! ## C1/C2: the bill/report batch loops -/

/-- The bill loop distributes over concatenation: documents are processed
independently. -/
theorem processBills_append (xs ys : List BillDoc) :
    processBills (xs ++ ys) = processBills xs ++ processBills ys := by
  induction xs with
  | nil => rfl
  | cons d xs ih =>
    simp only [List.cons_append, processBills, List.append_eq, ih]
    split
    · rfl
    · cases d.upload with
      | error er => rfl
      | ok u =>
        cases d.parse with
        | error er => rfl
        | ok pb => rfl

/-- The report loop distributes over concatenation. -/
theorem processReports_append (meds : List Json) (diagnosis : Option String)
    (xs ys : List ReportDoc) :
    processReports meds diagnosis (xs ++ ys) =
      processReports meds diagnosis xs ++ processReports meds diagnosis ys := by
  induction xs with
  | nil => rfl
  | cons d xs ih =>
    simp only [List.cons_append, processReports, List.append_eq, ih]
    split
    · rfl
    · cases d.upload with
      | error er => rfl
      | ok u =>
        cases d.parse meds diagnosis with
        | error er => rfl
        | ok pr => rfl

/-- Example documents used by the batch witnesses and counterexamples. -/
def exBillOk : BillDoc :=
  ⟨some ("bill1.pdf"), .ok (("cloudinary/bill1"), 2),
    .ok ⟨("Hospital Bill"), [⟨("Room Charges"), ("5000")⟩], ("5000")⟩⟩

/-- A second successful bill document. -/
def exBillOk2 : BillDoc :=
  ⟨some ("bill3.pdf"), .ok (("cloudinary/bill3"), 1),
    .ok ⟨("Pharmacy Bill"), [], ("900")⟩⟩

/-- A bill document whose inference call raises. -/
def exBillFail : BillDoc :=
  ⟨some ("bill2.pdf"), .ok (("cloudinary/bill2"), 1), .error .typeError⟩

/-- C1 counterexample: two input documents, one of which raises during
inference, yield a single output entry — not the claimed two
BatchItemResults, one per input. -/
theorem c1_counterexample :
    (processBills [exBillFail, exBillOk]).length = 1 ∧
    ([exBillFail, exBillOk] : List BillDoc).length = 2 ∧
    (1 : Nat) ≠ 2 :=
  ⟨rfl, rfl, by decide⟩

/-- C1 (amended): for both batch kinds, the output is one entry per
successfully processed document, in input order — documents that are skipped
by the file-kind check or that fail at the upload or inference step
contribute no entry at all, so over N documents with exactly one inference
failure the output has N−1 entries, all of them successes. -/
theorem c1_batch_output_only_successes :
    (∀ docs : List BillDoc, processBills docs = (docs.filter billOk).map billDictOf) ∧
    (∀ (meds : List Json) (diagnosis : Option String) (docs : List ReportDoc),
      processReports meds diagnosis docs =
        (docs.filter (reportOk meds diagnosis)).map (reportDictOf meds diagnosis)) := by
  constructor
  · intro docs
    induction docs with
    | nil => rfl
    | cons d rest ih =>
      simp only [processBills, ih, List.filter_cons]
      by_cases hv : validPdfName d.filename
      · cases hu : d.upload with
        | error er => simp [billOk, hv, hu, exceptOk]
        | ok u =>
          cases hp : d.parse with
          | error er => simp [billOk, hv, hu, hp, exceptOk]
          | ok pb =>
            simp [billOk, hv, hu, hp, exceptOk, billDictOf]
      · simp [billOk, hv]
  · intro meds diagnosis docs
    induction docs with
    | nil => rfl
    | cons d rest ih =>
      simp only [processReports, ih, List.filter_cons]
      by_cases hv : validPdfName d.filename
      · cases hu : d.upload with
        | error er => simp [reportOk, hv, hu, exceptOk]
        | ok u =>
          cases hp : d.parse meds diagnosis with
          | error er => simp [reportOk, hv, hu, hp, exceptOk]
          | ok pr =>
            simp [reportOk, hv, hu, hp, exceptOk, reportDictOf]
      · simp [reportOk, hv]

/-- C2: a document on which any step raises is isolated — the loop catches
the exception, contributes nothing for that document, and processes every
other document exactly as it would have without it; the batch call itself
always returns (the functions are total). -/
theorem c2_batch_isolation :
    (∀ (xs ys : List BillDoc) (d : BillDoc), billFails d = true →
      processBills (xs ++ d :: ys) = processBills xs ++ processBills ys) ∧
    (∀ (meds : List Json) (diagnosis : Option String) (xs ys : List ReportDoc)
      (d : ReportDoc), reportFails meds diagnosis d = true →
      processReports meds diagnosis (xs ++ d :: ys) =
        processReports meds diagnosis xs ++ processReports meds diagnosis ys) := by
  constructor
  · intro xs ys d hf
    rw [processBills_append]
    congr 1
    show processBills (d :: ys) = processBills ys
    simp only [billFails, Bool.and_eq_true, Bool.or_eq_true, Bool.not_eq_true'] at hf
    obtain ⟨hv, herr⟩ := hf
    simp only [processBills, hv, Bool.not_true, Bool.false_eq_true, if_false]
    rcases herr with herr | herr
    · cases hu : d.upload with
      | error er => rfl
      | ok u => rw [hu] at herr; simp [exceptOk] at herr
    · cases hu : d.upload with
      | error er => rfl
      | ok u =>
        cases hp : d.parse with
        | error er => rfl
        | ok pb => rw [hp] at herr; simp [exceptOk] at herr
  · intro meds diagnosis xs ys d hf
    rw [processReports_append]
    congr 1
    show processReports meds diagnosis (d :: ys) = processReports meds diagnosis ys
    simp only [reportFails, Bool.and_eq_true, Bool.or_eq_true, Bool.not_eq_true'] at hf
    obtain ⟨hv, herr⟩ := hf
    simp only [processReports, hv, Bool.not_true, Bool.false_eq_true, if_false]
    rcases herr with herr | herr
    · cases hu : d.upload with
      | error er => rfl
      | ok u => rw [hu] at herr; simp [exceptOk] at herr
    · cases hu : d.upload with
      | error er => rfl
      | ok u =>
        cases hp : d.parse meds diagnosis with
        | error er => rfl
        | ok pr => rw [hp] at herr; simp [exceptOk] at herr

/-- C2 witness: removing a concrete failing bill from between two successes
leaves their results untouched. -/
theorem c2_batch_isolation_witness :
    processBills [exBillOk, exBillFail, exBillOk2] =
      processBills [exBillOk] ++ processBills [exBillOk2] ∧
    processBills [exBillOk, exBillFail, exBillOk2] =
      [⟨("cloudinary/bill1"), ("Hospital Bill"), [⟨("Room Charges"), ("5000")⟩], ("5000")⟩,
       ⟨("cloudinary/bill3"), ("Pharmacy Bill"), [], ("900")⟩] :=
  ⟨c2_batch_isolation.1 [exBillOk] [exBillOk2] exBillFail (by decide), rfl⟩

/-! ## Field-step lemmas for the record builders -/

/-- A list pattern avoiding some character and matching as a prefix across an
append is consumed before that character: the left part begins with the whole
pattern. -/
theorem prefix_confined :
    ∀ (tag l1 l2 : List Char) (a : Char), (∀ x ∈ tag, ¬ x = a) →
      tag.isPrefixOf (l1 ++ a :: l2) = true → ∃ l1r, l1 = tag ++ l1r
  | [], l1, _, _, _, _ => ⟨l1, rfl⟩
  | t :: tag', [], l2, a, h, hp => by
    simp only [List.nil_append] at hp
    have h1 : (t == a && tag'.isPrefixOf l2) = true := hp
    rw [Bool.and_eq_true] at h1
    exact absurd (eq_of_beq h1.1) (h t (List.mem_cons_self t tag'))
  | t :: tag', b :: l1', l2, a, h, hp => by
    have hp2 : (t == b && tag'.isPrefixOf (l1' ++ a :: l2)) = true := hp
    rw [Bool.and_eq_true] at hp2
    obtain ⟨htb, hrest⟩ := hp2
    obtain ⟨l1r, rfl⟩ := prefix_confined tag' l1' l2 a
      (fun x hx => h x (List.mem_cons_of_mem t hx)) hrest
    exact ⟨l1r, by rw [eq_of_beq htb]; rfl⟩

/-- Taking from a concatenation whose right part starts with a failing
element takes only within the left part. -/
theorem takeWhile_append_headFalse {p : Char → Bool} :
    ∀ (l1 : List Char) (a : Char) (l2 : List Char), p a = false →
      ((l1 ++ a :: l2).takeWhile p) = l1.takeWhile p
  | [], a, l2, ha => by simp [List.takeWhile_cons, ha]
  | c :: l1, a, l2, ha => by
    simp only [List.cons_append, List.takeWhile_cons]
    by_cases hc : p c = true
    · simp [hc, takeWhile_append_headFalse l1 a l2 ha]
    · simp only [Bool.not_eq_true] at hc
      simp [hc]

/-- A `takeWhile` result is never longer than its input. -/
theorem takeWhile_length_le {p : Char → Bool} :
    ∀ l : List Char, (l.takeWhile p).length ≤ l.length
  | [] => Nat.le_refl 0
  | c :: l => by
    simp only [List.takeWhile_cons]
    by_cases hc : p c = true
    · simpa [hc] using Nat.succ_le_succ (takeWhile_length_le l)
    · simp only [Bool.not_eq_true] at hc
      simp [hc]

/-- A list with head `a` is a cons. -/
theorem head_eq_cons {R : List Char} {a : Char} (hR : R.head? = some a) :
    ∃ Rt, R = a :: Rt := by
  cases R with
  | nil => exact absurd hR (by simp)
  | cons x xs =>
    simp only [List.head?_cons, Option.some.injEq] at hR
    exact ⟨xs, by rw [hR]⟩

/-- `prefix_confined` phrased for a right part known only by its head. -/
theorem prefix_confined_head (tag X R : List Char) (a : Char) (hR : R.head? = some a)
    (h : ∀ x ∈ tag, ¬ x = a) (hp : tag.isPrefixOf (X ++ R) = true) :
    ∃ XR, X = tag ++ XR := by
  obtain ⟨Rt, rfl⟩ := head_eq_cons hR
  exact prefix_confined tag X Rt a h hp

/-- The characters of the optional-tag drop come from its input. -/
theorem fence1Tag_subset (cs : List Char) (c : Char) (h : c ∈ fence1Tag cs) : c ∈ cs := by
  unfold fence1Tag at h
  split at h
  · exact List.mem_of_mem_drop h
  · split at h
    · exact List.mem_of_mem_drop h
    · exact h

/-- The characters remaining after one fence-match consumption come from the
input. -/
theorem fence1Consume_subset (cs : List Char) (c : Char) (h : c ∈ fence1Consume cs) :
    c ∈ cs :=
  List.mem_of_mem_drop (fence1Tag_subset _ c (List.mem_of_mem_drop h))

/-- The first fence substitution only deletes: its output characters come
from its input. -/
theorem fenceSub1Aux_subset :
    ∀ (fuel : Nat) (b : Bool) (cs : List Char) (c : Char),
      c ∈ fenceSub1Aux fuel b cs → c ∈ cs
  | 0, _, _, _, hc => hc
  | _ + 1, _, [], _, hc => absurd hc (List.not_mem_nil _)
  | f + 1, b, x :: rest, c, hc => by
    by_cases hm : (b && btick3.isPrefixOf (x :: rest)) = true
    · simp only [fenceSub1Aux, hm, if_true] at hc
      exact fence1Consume_subset _ c (fenceSub1Aux_subset f _ _ c hc)
    · simp only [fenceSub1Aux, hm, if_false] at hc
      rcases List.mem_cons.mp hc with hc2 | hc2
      · exact hc2 ▸ List.mem_cons_self x rest
      · exact List.mem_cons_of_mem x (fenceSub1Aux_subset f _ rest c hc2)

/-- The second fence pattern, when it matches, only drops characters. -/
theorem fence2MatchCore_subset (cs r : List Char) (h : fence2MatchCore cs = some r) :
    ∀ c ∈ r, c ∈ cs := by
  intro c hc
  unfold fence2MatchCore at h
  by_cases hp : btick3.isPrefixOf cs = true
  · simp only [hp, if_true] at h
    split at h
    · cases h
      exact List.mem_of_mem_drop (List.mem_of_mem_drop hc)
    · split at h
      · cases h
        exact List.mem_of_mem_drop (List.mem_of_mem_drop hc)
      · cases h
  · simp only [hp, if_false] at h
    cases h

/-- The optional-newline variant, when it matches, only drops characters. -/
theorem fence2Match_subset (cs r : List Char) (h : fence2Match cs = some r) :
    ∀ c ∈ r, c ∈ cs := by
  intro c hc
  unfold fence2Match at h
  cases cs with
  | nil => cases h
  | cons x rest =>
    by_cases hx : (x == '\n') = true
    · simp only [hx, if_true] at h
      exact List.mem_cons_of_mem x (fence2MatchCore_subset rest r h c hc)
    · simp only [hx, Bool.false_eq_true, if_false] at h
      exact fence2MatchCore_subset (x :: rest) r h c hc

/-- The second fence substitution only deletes. -/
theorem fenceSub2Aux_subset :
    ∀ (fuel : Nat) (cs : List Char) (c : Char), c ∈ fenceSub2Aux fuel cs → c ∈ cs
  | 0, _, _, hc => hc
  | f + 1, cs, c, hc => by
    cases hm : fence2Match cs with
    | some r =>
      simp only [fenceSub2Aux, hm] at hc
      exact fence2Match_subset cs r hm c (fenceSub2Aux_subset f r c hc)
    | none =>
      simp only [fenceSub2Aux, hm] at hc
      cases cs with
      | nil => exact absurd hc (List.not_mem_nil _)
      | cons x rest =>
        rcases List.mem_cons.mp hc with hc2 | hc2
        · exact hc2 ▸ List.mem_cons_self x rest
        · exact List.mem_cons_of_mem x (fenceSub2Aux_subset f rest c hc2)

/-- Scanning a backtick-free block: the first fence substitution copies it
verbatim and continues in the remainder. -/
theorem fenceSub1Aux_embed_core :
    ∀ (fuel : Nat) (b : Bool) (core post : List Char), (∀ c ∈ core, ¬ c = btick) →
      ∃ post2, fenceSub1Aux fuel b (core ++ post) = core ++ post2 ∧
        ∀ c ∈ post2, c ∈ post
  | 0, _, core, post, _ => ⟨post, rfl, fun _ hc => hc⟩
  | f + 1, b, [], post, _ =>
    ⟨fenceSub1Aux (f + 1) b post, rfl, fun c hc => fenceSub1Aux_subset (f + 1) b post c hc⟩
  | f + 1, b, x :: core', post, h => by
    have hx : ¬ x = btick := h x (List.mem_cons_self x core')
    have hm : (b && btick3.isPrefixOf (x :: (core' ++ post))) = false := by
      have : btick3.isPrefixOf (x :: (core' ++ post)) = false := by
        show (btick == x && (List.isPrefixOf [btick, btick] (core' ++ post))) = false
        simp [beq_eq_false_iff_ne.mpr fun e => hx e.symm]
      simp [this]
    obtain ⟨post2, heq, hsub⟩ := fenceSub1Aux_embed_core f (x == '\n') core' post
      fun c hc => h c (List.mem_cons_of_mem x hc)
    refine ⟨post2, ?_, hsub⟩
    show fenceSub1Aux (f + 1) b (x :: (core' ++ post)) = x :: (core' ++ post2)
    simp only [fenceSub1Aux, hm, Bool.false_eq_true, if_false]
    rw [heq]

/-- Dropping the optional tag in an embedded text stays inside the prose. -/
theorem fence1Tag_embed (X R : List Char) (hR : R.head? = some lbrace) :
    ∃ XB, fence1Tag (X ++ R) = XB ++ R ∧ ∀ c ∈ XB, c ∈ X := by
  unfold fence1Tag
  by_cases h1 : (("json").data).isPrefixOf (X ++ R) = true
  · obtain ⟨XB, rfl⟩ := prefix_confined_head (("json").data) X R lbrace hR (by decide) h1
    refine ⟨XB, ?_, fun c hc => List.mem_append_right _ hc⟩
    rw [if_pos h1, List.append_assoc]
    exact List.drop_left' (by rfl)
  · rw [if_neg h1]
    by_cases h2 : (("JSON").data).isPrefixOf (X ++ R) = true
    · obtain ⟨XB, rfl⟩ := prefix_confined_head (("JSON").data) X R lbrace hR (by decide) h2
      refine ⟨XB, ?_, fun c hc => List.mem_append_right _ hc⟩
      rw [if_pos h2, List.append_assoc]
      exact List.drop_left' (by rfl)
    · rw [if_neg h2]
      exact ⟨X, rfl, fun _ hc => hc⟩

/-- One full fence-match consumption in an embedded text stays inside the
prose before the object. -/
theorem fence1Consume_embed (X R : List Char) (hR : R.head? = some lbrace)
    (hpfx : btick3.isPrefixOf (X ++ R) = true) :
    ∃ XC, fence1Consume (X ++ R) = XC ++ R ∧ ∀ c ∈ XC, c ∈ X := by
  obtain ⟨XA, rfl⟩ := prefix_confined_head btick3 X R lbrace hR (by decide) hpfx
  have hdrop3 : ((btick3 ++ XA) ++ R).drop 3 = XA ++ R := by
    rw [List.append_assoc]
    exact List.drop_left' (by rfl)
  obtain ⟨XB, hXB, hsubB⟩ := fence1Tag_embed XA R hR
  obtain ⟨Rt, rfl⟩ := head_eq_cons hR
  have hws : ((XB ++ lbrace :: Rt).takeWhile isPySpace) = XB.takeWhile isPySpace :=
    takeWhile_append_headFalse XB lbrace Rt (by decide)
  have hlen : (XB.takeWhile isPySpace).length ≤ XB.length := takeWhile_length_le XB
  refine ⟨XB.drop (XB.takeWhile isPySpace).length, ?_, ?_⟩
  · unfold fence1Consume
    rw [hdrop3, hXB, hws]
    exact List.drop_append_of_le_length hlen
  · intro c hc
    exact List.mem_append_right _ (hsubB c (List.mem_of_mem_drop hc))

/-- The first fence substitution on prose-embedded text whose object core is
backtick-free and starts with the opening brace: every deletion happens in
the prose, the core passes through verbatim. -/
theorem fenceSub1Aux_embed :
    ∀ (fuel : Nat) (b : Bool) (pre core post : List Char),
      (∀ c ∈ core, ¬ c = btick) → core.head? = some lbrace →
      ∃ pre2 post2, fenceSub1Aux fuel b (pre ++ (core ++ post)) = pre2 ++ (core ++ post2) ∧
        (∀ c ∈ pre2, c ∈ pre) ∧ (∀ c ∈ post2, c ∈ post)
  | 0, _, pre, core, post, _, _ => ⟨pre, post, rfl, fun _ hc => hc, fun _ hc => hc⟩
  | f + 1, b, [], core, post, hbt, _ => by
    obtain ⟨post2, heq, hsub⟩ := fenceSub1Aux_embed_core (f + 1) b core post hbt
    exact ⟨[], post2, by simpa using heq, fun _ hc => hc, hsub⟩
  | f + 1, b, p :: pre', core, post, hbt, hh => by
    have hhR : (core ++ post).head? = some lbrace := by
      obtain ⟨core', rfl⟩ := head_eq_cons hh
      rfl
    by_cases hm : (b && btick3.isPrefixOf (p :: (pre' ++ (core ++ post)))) = true
    · have hm' := hm
      rw [Bool.and_eq_true] at hm'
      obtain ⟨XC, hXC, hsubC⟩ := fence1Consume_embed (p :: pre') (core ++ post) hhR hm'.2
      obtain ⟨pre2, post2, heq, hs1, hs2⟩ := fenceSub1Aux_embed f
        (fence1Nl (p :: (pre' ++ (core ++ post)))) XC core post hbt hh
      refine ⟨pre2, post2, ?_, fun c hc => hsubC c (hs1 c hc), hs2⟩
      show fenceSub1Aux (f + 1) b (p :: (pre' ++ (core ++ post))) = pre2 ++ (core ++ post2)
      simp only [fenceSub1Aux]
      rw [if_pos hm]
      simp only [List.cons_append] at hXC
      rw [hXC]
      exact heq
    · obtain ⟨pre2, post2, heq, hs1, hs2⟩ := fenceSub1Aux_embed f (p == '\n') pre' core post
        hbt hh
      refine ⟨p :: pre2, post2, ?_, ?_, hs2⟩
      · show fenceSub1Aux (f + 1) b (p :: (pre' ++ (core ++ post))) =
          (p :: pre2) ++ (core ++ post2)
        simp only [fenceSub1Aux]
        rw [if_neg hm]
        simp only [List.cons_append]
        rw [heq]
      · intro c hc
        rcases List.mem_cons.mp hc with hc2 | hc2
        · exact hc2 ▸ List.mem_cons_self p pre'
        · exact List.mem_cons_of_mem p (hs1 c hc2)

/-- The second fence pattern never matches at a position whose first
character is not a backtick. -/
theorem fence2MatchCore_none_of_head (cs : List Char) (c : Char)
    (hc : cs.head? = some c) (hne : ¬ c = btick) : fence2MatchCore cs = none := by
  obtain ⟨rest, rfl⟩ := head_eq_cons hc
  have hpf : btick3.isPrefixOf (c :: rest) = false := by
    show (btick == c && List.isPrefixOf [btick, btick] rest) = false
    simp [beq_eq_false_iff_ne.mpr fun e => hne e.symm]
  unfold fence2MatchCore
  simp [hpf]

/-- A second-fence match starting in the prose before the embedded object
either fails or consumes only prose. -/
theorem fence2MatchCore_embed (X R : List Char) (hR : R.head? = some lbrace) :
    fence2MatchCore (X ++ R) = none ∨
      ∃ XR, fence2MatchCore (X ++ R) = some (XR ++ R) ∧ ∀ c ∈ XR, c ∈ X := by
  by_cases hp : btick3.isPrefixOf (X ++ R) = true
  · obtain ⟨XA, rfl⟩ := prefix_confined_head btick3 X R lbrace hR (by decide) hp
    have hdrop3 : ((btick3 ++ XA) ++ R).drop 3 = XA ++ R := by
      rw [List.append_assoc]
      exact List.drop_left' (by rfl)
    obtain ⟨Rt, rfl⟩ := head_eq_cons hR
    have hws : ((XA ++ lbrace :: Rt).takeWhile isPySpace) = XA.takeWhile isPySpace :=
      takeWhile_append_headFalse XA lbrace Rt (by decide)
    have hlen : (XA.takeWhile isPySpace).length ≤ XA.length := takeWhile_length_le XA
    unfold fence2MatchCore
    rw [if_pos hp, hdrop3, hws, List.drop_append_of_le_length hlen]
    have hie : ¬ ((XA.drop (XA.takeWhile isPySpace).length ++ lbrace :: Rt).isEmpty
        = true) := by
      simp
    rw [if_neg hie]
    cases hfi : (XA.takeWhile isPySpace).reverse.findIdx? (· == '\n') with
    | none =>
      left
      rfl
    | some i =>
      right
      have hj : (XA.takeWhile isPySpace).length - 1 - i ≤ XA.length :=
        le_trans (le_trans (Nat.sub_le _ _) (Nat.sub_le _ _)) hlen
      refine ⟨XA.drop ((XA.takeWhile isPySpace).length - 1 - i), ?_, ?_⟩
      · show some ((XA ++ lbrace :: Rt).drop ((XA.takeWhile isPySpace).length - 1 - i)) = _
        rw [List.drop_append_of_le_length hj]
      · intro c hc
        exact List.mem_append_right _ (List.mem_of_mem_drop hc)
  · left
    unfold fence2MatchCore
    rw [if_neg hp]

/-- The optional-newline variant of the second-fence match, started in
nonempty prose, either fails or consumes only prose. -/
theorem fence2Match_embed (p : Char) (X R : List Char) (hR : R.head? = some lbrace)
    (r : List Char) (hr : fence2Match (p :: (X ++ R)) = some r) :
    ∃ XR, r = XR ++ R ∧ ∀ c ∈ XR, c ∈ p :: X := by
  have hr2 : (if (p == '\n') = true then fence2MatchCore (X ++ R)
      else fence2MatchCore (p :: (X ++ R))) = some r := hr
  by_cases hp : (p == '\n') = true
  · rw [if_pos hp] at hr2
    rcases fence2MatchCore_embed X R hR with hnone | ⟨XR, hsome, hsub⟩
    · rw [hnone] at hr2
      exact absurd hr2 (by simp)
    · rw [hsome] at hr2
      exact ⟨XR, (Option.some.inj hr2).symm,
        fun c hc => List.mem_cons_of_mem p (hsub c hc)⟩
  · rw [if_neg hp] at hr2
    rcases fence2MatchCore_embed (p :: X) R hR with hnone | ⟨XR, hsome, hsub⟩
    · simp only [List.cons_append] at hnone
      rw [hnone] at hr2
      exact absurd hr2 (by simp)
    · simp only [List.cons_append] at hsome
      rw [hsome] at hr2
      exact ⟨XR, (Option.some.inj hr2).symm, hsub⟩

/-- Scanning the backtick-free object core: the second fence substitution
copies it verbatim and continues in the remainder. -/
theorem fenceSub2Aux_embed_core :
    ∀ (fuel : Nat) (core post : List Char), (∀ c ∈ core, ¬ c = btick) →
      core.getLast? = some rbrace →
      ∃ post2, fenceSub2Aux fuel (core ++ post) = core ++ post2 ∧ ∀ c ∈ post2, c ∈ post
  | 0, _, post, _, _ => ⟨post, rfl, fun _ hc => hc⟩
  | f + 1, core, post, hbt, hlast => by
    cases core with
    | nil => exact absurd hlast (by simp)
    | cons x core' =>
      have hx : ¬ x = btick := hbt x (List.mem_cons_self x core')
      have hmatch : fence2Match (x :: (core' ++ post)) = none := by
        have h0 : fence2Match (x :: (core' ++ post)) =
            (if (x == '\n') = true then fence2MatchCore (core' ++ post)
             else fence2MatchCore (x :: (core' ++ post))) := rfl
        rw [h0]
        by_cases hxn : (x == '\n') = true
        · rw [if_pos hxn]
          cases core' with
          | nil =>
            have hxr : x = rbrace := by simpa using hlast
            rw [eq_of_beq hxn] at hxr
            exact absurd hxr (by decide)
          | cons y core'' =>
            exact fence2MatchCore_none_of_head ((y :: core'') ++ post) y rfl
              (hbt y (List.mem_cons_of_mem x (List.mem_cons_self y core'')))
        · rw [if_neg hxn]
          exact fence2MatchCore_none_of_head (x :: (core' ++ post)) x rfl hx
      cases core' with
      | nil =>
        refine ⟨fenceSub2Aux f post, ?_, fun c hc => fenceSub2Aux_subset f post c hc⟩
        show fenceSub2Aux (f + 1) (x :: post) = x :: fenceSub2Aux f post
        have hm2 : fence2Match (x :: post) = none := by simpa using hmatch
        simp only [fenceSub2Aux, hm2]
      | cons y core'' =>
        have hlast2 : (y :: core'').getLast? = some rbrace := by
          rw [List.getLast?_cons_cons] at hlast
          exact hlast
        obtain ⟨post2, heq, hsub⟩ := fenceSub2Aux_embed_core f (y :: core'') post
          (fun c hc => hbt c (List.mem_cons_of_mem x hc)) hlast2
        refine ⟨post2, ?_, hsub⟩
        show fenceSub2Aux (f + 1) (x :: ((y :: core'') ++ post)) =
          x :: ((y :: core'') ++ post2)
        simp only [fenceSub2Aux, hmatch]
        rw [heq]

/-- The second fence substitution on prose-embedded text whose brace-delimited
core is backtick-free: every deletion happens in the prose. -/
theorem fenceSub2Aux_embed :
    ∀ (fuel : Nat) (pre core post : List Char), (∀ c ∈ core, ¬ c = btick) →
      core.head? = some lbrace → core.getLast? = some rbrace →
      ∃ pre2 post2, fenceSub2Aux fuel (pre ++ (core ++ post)) = pre2 ++ (core ++ post2) ∧
        (∀ c ∈ pre2, c ∈ pre) ∧ (∀ c ∈ post2, c ∈ post)
  | 0, pre, _, post, _, _, _ => ⟨pre, post, rfl, fun _ hc => hc, fun _ hc => hc⟩
  | f + 1, [], core, post, hbt, _, hl => by
    obtain ⟨post2, heq, hsub⟩ := fenceSub2Aux_embed_core (f + 1) core post hbt hl
    exact ⟨[], post2, by simpa using heq, fun _ hc => hc, hsub⟩
  | f + 1, p :: pre', core, post, hbt, hh, hl => by
    have hhR : (core ++ post).head? = some lbrace := by
      obtain ⟨core', rfl⟩ := head_eq_cons hh
      rfl
    cases hm : fence2Match (p :: (pre' ++ (core ++ post))) with
    | some r =>
      obtain ⟨XR, hrEq, hsub⟩ := fence2Match_embed p pre' (core ++ post) hhR r hm
      obtain ⟨pre2, post2, heq, hs1, hs2⟩ := fenceSub2Aux_embed f XR core post hbt hh hl
      refine ⟨pre2, post2, ?_, fun c hc => hsub c (hs1 c hc), hs2⟩
      show fenceSub2Aux (f + 1) (p :: (pre' ++ (core ++ post))) = pre2 ++ (core ++ post2)
      simp only [fenceSub2Aux, hm]
      rw [hrEq]
      exact heq
    | none =>
      obtain ⟨pre2, post2, heq, hs1, hs2⟩ := fenceSub2Aux_embed f pre' core post hbt hh hl
      refine ⟨p :: pre2, post2, ?_, ?_, hs2⟩
      · show fenceSub2Aux (f + 1) (p :: (pre' ++ (core ++ post))) =
          (p :: pre2) ++ (core ++ post2)
        simp only [fenceSub2Aux, hm]
        simp only [List.cons_append]
        rw [heq]
      · intro c hc
        rcases List.mem_cons.mp hc with hc2 | hc2
        · exact hc2 ▸ List.mem_cons_self p pre'
        · exact List.mem_cons_of_mem p (hs1 c hc2)

/-- Dropping from a concatenation whose right part starts with a failing
element drops only within the left part. -/
theorem dropWhile_append_headFalse {α : Type} {p : α → Bool} :
    ∀ (l₁ : List α) (a : α) (l₂ : List α), p a = false →
      (l₁ ++ a :: l₂).dropWhile p = l₁.dropWhile p ++ a :: l₂
  | [], a, l₂, ha => by simp [List.dropWhile_cons, ha]
  | c :: l₁, a, l₂, ha => by
    by_cases hc : p c = true
    · simp only [List.cons_append, List.dropWhile_cons, hc, if_true]
      exact dropWhile_append_headFalse l₁ a l₂ ha
    · simp only [Bool.not_eq_true] at hc
      simp [List.dropWhile_cons, hc]

/-- Dropping from a concatenation whose left part satisfies the predicate
throughout drops the whole left part. -/
theorem dropWhile_append_all {α : Type} {p : α → Bool} :
    ∀ (l₁ l₂ : List α), (∀ c ∈ l₁, p c = true) →
      (l₁ ++ l₂).dropWhile p = l₂.dropWhile p
  | [], _, _ => rfl
  | c :: l₁, l₂, h => by
    simp only [List.cons_append, List.dropWhile_cons, h c (List.mem_cons_self c l₁), if_true]
    exact dropWhile_append_all l₁ l₂ fun x hx => h x (List.mem_cons_of_mem c hx)

/-- `str.strip()` of an embedding trims only inside the prose when the core
has non-whitespace first and last characters. -/
theorem pyStrip_embed (pre core post : List Char) (a b : Char)
    (hh : core.head? = some a) (ha : isPySpace a = false)
    (hl : core.getLast? = some b) (hb : isPySpace b = false) :
    pyStrip (pre ++ core ++ post) =
      pre.dropWhile isPySpace ++ core ++ (post.reverse.dropWhile isPySpace).reverse := by
  obtain ⟨core', rfl⟩ : ∃ core', core = a :: core' := by
    cases core with
    | nil => exact absurd hh (by simp)
    | cons x xs =>
      simp only [List.head?_cons, Option.some.injEq] at hh
      exact ⟨xs, by rw [hh]⟩
  obtain ⟨tl, hrev⟩ : ∃ tl, (a :: core').reverse = b :: tl := by
    cases hr : (a :: core').reverse with
    | nil => exact absurd (congrArg List.length hr) (by simp)
    | cons x xs =>
      have := List.head?_reverse (a :: core')
      rw [hr, hl] at this
      simp only [List.head?_cons, Option.some.injEq] at this
      exact ⟨xs, by rw [this]⟩
  unfold pyStrip
  have h1 : (pre ++ (a :: core') ++ post).dropWhile isPySpace =
      pre.dropWhile isPySpace ++ (a :: (core' ++ post)) := by
    have := dropWhile_append_headFalse (p := isPySpace) pre a (core' ++ post) ha
    simpa [List.append_assoc] using this
  rw [h1]
  have h2 : (pre.dropWhile isPySpace ++ (a :: (core' ++ post))).reverse =
      post.reverse ++ (b :: (tl ++ (pre.dropWhile isPySpace).reverse)) := by
    have : (pre.dropWhile isPySpace ++ (a :: (core' ++ post))).reverse =
        post.reverse ++ ((a :: core').reverse ++ (pre.dropWhile isPySpace).reverse) := by
      simp [List.reverse_append, List.append_assoc]
    rw [this, hrev]
    simp [List.append_assoc]
  rw [h2, dropWhile_append_headFalse (p := isPySpace) post.reverse b
    (tl ++ (pre.dropWhile isPySpace).reverse) hb]
  have h3 : (b :: tl) ++ (pre.dropWhile isPySpace).reverse =
      b :: (tl ++ (pre.dropWhile isPySpace).reverse) := by simp
  rw [← h3, ← hrev]
  simp [List.reverse_append, List.append_assoc]

/-- Brace extraction of an embedding returns exactly the core when the prose
before holds no opening brace, the prose after holds no closing brace, and
the core is brace-delimited. -/
theorem braceExtract_embed (pre core post : List Char)
    (hpre : ∀ c ∈ pre, ¬ c = lbrace) (hpost : ∀ c ∈ post, ¬ c = rbrace)
    (hh : core.head? = some lbrace) (hl : core.getLast? = some rbrace) :
    braceExtract (pre ++ core ++ post) = core := by
  obtain ⟨core', rfl⟩ : ∃ core', core = lbrace :: core' := by
    cases core with
    | nil => exact absurd hh (by simp)
    | cons x xs =>
      simp only [List.head?_cons, Option.some.injEq] at hh
      exact ⟨xs, by rw [hh]⟩
  obtain ⟨tl, hrev⟩ : ∃ tl, (lbrace :: core').reverse = rbrace :: tl := by
    cases hr : (lbrace :: core').reverse with
    | nil => exact absurd (congrArg List.length hr) (by simp)
    | cons x xs =>
      have := List.head?_reverse (lbrace :: core')
      rw [hr, hl] at this
      simp only [List.head?_cons, Option.some.injEq] at this
      exact ⟨xs, by rw [this]⟩
  have htail : (pre ++ (lbrace :: core') ++ post).dropWhile (fun c => !(c == lbrace)) =
      lbrace :: (core' ++ post) := by
    rw [List.append_assoc]
    rw [dropWhile_append_all pre _ (by
      intro c hc
      simp [beq_eq_false_iff_ne.mpr (hpre c hc)])]
    simp [List.dropWhile_cons]
  have hkept : (lbrace :: (core' ++ post)).reverse.dropWhile (fun c => !(c == rbrace)) =
      rbrace :: tl := by
    have hr2 : (lbrace :: (core' ++ post)).reverse =
        post.reverse ++ (rbrace :: tl) := by
      have : (lbrace :: (core' ++ post)).reverse =
          post.reverse ++ (lbrace :: core').reverse := by
        simp [List.reverse_append]
      rw [this, hrev]
    rw [hr2]
    rw [dropWhile_append_all post.reverse _ (by
      intro c hc
      have : c ∈ post := by
        have := List.mem_reverse.mp hc
        exact this
      simp [beq_eq_false_iff_ne.mpr (hpost c this)])]
    simp [List.dropWhile_cons]
  unfold braceExtract
  rw [htail, hkept]
  have : (rbrace :: tl).reverse = lbrace :: core' := by
    rw [← hrev, List.reverse_reverse]
  rw [this]
  simp

/-- When the fully cleaned text parses, `robust_json_parse` returns that
parse: it is the first attempt of the chain. -/
theorem robustJsonParseL_clean_ok (cs : List Char) (v : Json)
    (h : pyJsonLoads (cleanedText cs) = .ok v) :
    robustJsonParseL cs = .ok v := by
  unfold robustJsonParseL
  simp only [h]

/-- When the cleaned text does not parse but the original is valid except
for trailing commas, the third attempt — the original text with only the
trailing-comma fix — returns its parse. -/
theorem robustJsonParseL_attempt3 (cs : List Char) (v : Json)
    (h1 : pyJsonLoads (cleanedText cs) = .error ())
    (h2 : pyJsonLoads cs = .error ())
    (h3 : pyJsonLoads (commaFix cs) = .ok v) :
    robustJsonParseL cs = .ok v := by
  unfold robustJsonParseL
  simp only [h1, h2, h3]

/-! ## C3: extraction of embedded JSON -/

/-- C3 counterexample: for the valid JSON object `{"a": ",}"}` embedded after
plain prose, extraction succeeds but returns `{"a": "}"}` — the trailing-comma
regex deleted the comma inside the string value before the first parse
attempt — while parsing the object alone yields the value `",}"`. -/
theorem c3_counterexample :
    robust_json_parse ("Result: \x7b\"a\": \",\x7d\"\x7d") =
      .ok (Json.obj [(("a"), Json.str ("\x7d"))]) ∧
    pyJsonLoads (("\x7b\"a\": \",\x7d\"\x7d").data) =
      .ok (Json.obj [(("a"), Json.str (",\x7d"))]) ∧
    (("\x7d") : String) ≠ (",\x7d") :=
  ⟨rfl, rfl, by decide⟩

/-- C3 (amended): extraction recovers exactly the embedded object for every
prose enclosure — the prose may freely contain backticks, including markdown
fences — provided the object core itself is backtick-free, the prose before
it holds no opening brace, the prose after it no closing brace, and the core
(brace-delimited, parsing to `v`) is left unchanged by the comma/comment
cleanup rewrites; the counterexample shows the comma rewrite can otherwise
alter string values.  The second conjunct runs the whole pipeline on one
concrete fenced document. -/
theorem c3_embedded_json_extraction_amended :
    (∀ (pre core post : List Char) (v : Json),
      (∀ c ∈ core, ¬ c = btick) →
      (∀ c ∈ pre, ¬ c = lbrace) → (∀ c ∈ post, ¬ c = rbrace) →
      core.head? = some lbrace → core.getLast? = some rbrace →
      commaFix core = core → lineCommentStrip core = core → blockCommentStrip core = core →
      pyJsonLoads core = .ok v →
      robustJsonParseL (pre ++ core ++ post) = .ok v) ∧
    robust_json_parse
        ("Sure, here you go:\n\x60\x60\x60json\n\x7b\"a\": 1\x7d\n\x60\x60\x60\nThanks!") =
      .ok (Json.obj [(("a"), Json.num ("1"))]) := by
  constructor
  · intro pre core post v hbt hpreB hpostB hh hl hcomma hline hblock hparse
    obtain ⟨pre2, post2, hf1, hs1pre, hs1post⟩ :=
      fenceSub1Aux_embed ((pre ++ (core ++ post)).length + 1) true pre core post hbt hh
    obtain ⟨pre3, post3, hf2, hs2pre, hs2post⟩ :=
      fenceSub2Aux_embed ((pre2 ++ (core ++ post2)).length + 1) pre2 core post2 hbt hh hl
    have hfence1 : fenceSub1 (pre ++ core ++ post) = pre2 ++ (core ++ post2) := by
      unfold fenceSub1
      rw [List.append_assoc]
      exact hf1
    have hfence2 : fenceSub2 (pre2 ++ (core ++ post2)) = pre3 ++ (core ++ post3) := by
      unfold fenceSub2
      exact hf2
    have hstrip : pyStrip (pre3 ++ (core ++ post3)) =
        pre3.dropWhile isPySpace ++ core ++ (post3.reverse.dropWhile isPySpace).reverse := by
      rw [← List.append_assoc]
      exact pyStrip_embed pre3 core post3 lbrace rbrace hh (by decide) hl (by decide)
    have hbrace : braceExtract
        (pre3.dropWhile isPySpace ++ core ++ (post3.reverse.dropWhile isPySpace).reverse) =
        core := by
      apply braceExtract_embed _ _ _ _ _ hh hl
      · intro c hc
        exact hpreB c (hs1pre c (hs2pre c ((List.dropWhile_sublist isPySpace).mem hc)))
      · intro c hc
        have hc2 : c ∈ post3.reverse.dropWhile isPySpace := List.mem_reverse.mp hc
        have hc3 : c ∈ post3.reverse := (List.dropWhile_sublist isPySpace).mem hc2
        exact hpostB c (hs1post c (hs2post c (List.mem_reverse.mp hc3)))
    apply robustJsonParseL_clean_ok
    unfold cleanedText
    rw [hfence1, hfence2, hstrip, hbrace, hcomma, hline, hblock]
    exact hparse
  · rfl

/-- C3 witness: the universal statement applied to a fenced, prose-wrapped
document whose prose contains backticks on both sides of the object. -/
theorem c3_embedded_json_extraction_amended_witness :
    robust_json_parse ("Answer:\n\x60\x60\x60json\n\x7b\"b\": 2\x7d\n\x60\x60\x60\nBye.") =
      .ok (Json.obj [(("b"), Json.num ("2"))]) := by
  have h := c3_embedded_json_extraction_amended.1 (("Answer:\n\x60\x60\x60json\n").data)
    (("\x7b\"b\": 2\x7d").data) (("\n\x60\x60\x60\nBye.").data)
    (Json.obj [(("b"), Json.num ("2"))])
    (by decide) (by decide) (by decide) rfl rfl rfl rfl rfl rfl
  exact h

/-! ## C4: the trailing-comma repair -/

/-- C4 counterexample: `{"a": ",}",}` is valid JSON except for its one
trailing comma, but extraction returns `{"a": "}"}` — the context-insensitive
regex also deleted the comma inside the string value — instead of the claimed
`{"a": ",}"}` obtained by removing only the trailing comma. -/
theorem c4_counterexample :
    robust_json_parse ("\x7b\"a\": \",\x7d\",\x7d") =
      .ok (Json.obj [(("a"), Json.str ("\x7d"))]) ∧
    pyJsonLoads (("\x7b\"a\": \",\x7d\"\x7d").data) =
      .ok (Json.obj [(("a"), Json.str (",\x7d"))]) ∧
    (("\x7d") : String) ≠ (",\x7d") :=
  ⟨rfl, rfl, by decide⟩

/-- C4 (amended): the trailing-comma repair returns exactly the parse of the
comma-removed text in two regimes.  First conjunct, the cleaned-text path:
whenever the two fence substitutions leave the text unchanged (backticks that
form no fence are fine), its `strip()` is brace-delimited, and the comment
rewrites leave the comma-fixed stripped text unchanged, the first parse
attempt returns the parse of `commaFix (pyStrip t)` — this covers whitespace
padding and backtick-bearing values.  Second conjunct: even when the cleanup
chain damages the text (for example a `//` inside a URL value truncated by
the line-comment rewrite) and the original fails to parse, the third attempt
still returns the parse of the comma-fixed original.  The removal itself
stays context-insensitive — the counterexample shows it deleting a comma
inside a string value. -/
theorem c4_trailing_comma_repair_amended :
    (∀ (t : List Char) (v : Json),
      fenceSub1 t = t → fenceSub2 t = t →
      (pyStrip t).head? = some lbrace → (pyStrip t).getLast? = some rbrace →
      lineCommentStrip (commaFix (pyStrip t)) = commaFix (pyStrip t) →
      blockCommentStrip (commaFix (pyStrip t)) = commaFix (pyStrip t) →
      pyJsonLoads (commaFix (pyStrip t)) = .ok v →
      robustJsonParseL t = .ok v) ∧
    (∀ (t : List Char) (v : Json),
      pyJsonLoads (cleanedText t) = .error () →
      pyJsonLoads t = .error () →
      pyJsonLoads (commaFix t) = .ok v →
      robustJsonParseL t = .ok v) := by
  constructor
  · intro t v hf1 hf2 hh hl hline hblock hparse
    have hbrace : braceExtract (pyStrip t) = pyStrip t := by
      have := braceExtract_embed [] (pyStrip t) [] (by simp) (by simp) hh hl
      simpa using this
    apply robustJsonParseL_clean_ok
    unfold cleanedText
    rw [hf1, hf2, hbrace, hline, hblock]
    exact hparse
  · intro t v h1 h2 h3
    exact robustJsonParseL_attempt3 t v h1 h2 h3

/-- C4 witness: the first conjunct applied to a whitespace-padded
trailing-comma object and to one whose string value contains backticks; the
second conjunct applied to a trailing-comma object whose URL value would be
truncated by the line-comment rewrite. -/
theorem c4_trailing_comma_repair_amended_witness :
    robust_json_parse ("  \x7b\"a\": 1,\x7d  ") =
      .ok (Json.obj [(("a"), Json.num ("1"))]) ∧
    robust_json_parse ("\x7b\"a\": \"\x60\x60\x60\",\x7d") =
      .ok (Json.obj [(("a"), Json.str ("\x60\x60\x60"))]) ∧
    robust_json_parse ("\x7b\"url\": \"https://x\",\x7d") =
      .ok (Json.obj [(("url"), Json.str ("https://x"))]) := by
  refine ⟨?_, ?_, ?_⟩
  · exact c4_trailing_comma_repair_amended.1 (("  \x7b\"a\": 1,\x7d  ").data)
      (Json.obj [(("a"), Json.num ("1"))]) rfl rfl rfl rfl rfl rfl rfl
  · exact c4_trailing_comma_repair_amended.1 (("\x7b\"a\": \"\x60\x60\x60\",\x7d").data)
      (Json.obj [(("a"), Json.str ("\x60\x60\x60"))]) rfl rfl rfl rfl rfl rfl rfl
  · exact c4_trailing_comma_repair_amended.2 (("\x7b\"url\": \"https://x\",\x7d").data)
      (Json.obj [(("url"), Json.str ("https://x"))]) rfl rfl rfl

end MediCare
